import Mathlib

/-!
Shallow embedding of the evttools ELF (event-log-file) codec and log engine,
translated from the C sources (src/src/evt.c, src/src/widechar.c,
src/unnamed/part_000 = datastruct.c, src/unnamed/part_006 = sid.c,
src/src/testdatastruct.c second half = csv.c), together with proofs that
settle the frozen specification claims.

Machine integers are modelled as `Nat`/`Int` with explicit reductions
modulo `2^32`/`2^64` at the points where the C performs a narrowing
conversion or wrapping arithmetic.  Bytes are `Nat` values below 256.
Fallible C functions return `Option`/`Except`.
-/

namespace EvtTools

/-! ### Machine-arithmetic helpers -/

/-- Value of an `Int` converted to `uint32_t` (C modular conversion). -/
def uint32Of (i : Int) : Nat := (i % (2 ^ 32 : Int)).toNat

/-- Value of an `Int` converted to `size_t`/`uint64_t` (C modular conversion). -/
def uint64Of (i : Int) : Nat := (i % (2 ^ 64 : Int)).toNat

/-- Reinterpret the low 32 bits of a `Nat` as a signed two's-complement `int`. -/
def asInt32 (n : Nat) : Int :=
  let m : Nat := n % 2 ^ 32
  if m < 2 ^ 31 then (m : Int) else (m : Int) - 2 ^ 32

theorem uint32Of_ofNat (n : Nat) : uint32Of n = n % 2 ^ 32 := by
  unfold uint32Of; omega

theorem uint32Of_eq_self {n : Nat} (h : n < 2 ^ 32) : uint32Of n = n := by
  rw [uint32Of_ofNat]; exact Nat.mod_eq_of_lt h

/-! ### Little-endian byte serialization -/

/-- Little-endian bytes of a 16-bit value (as written by `evtWrite`). -/
def le16 (n : Nat) : List Nat := [n % 256, n / 256 % 256]

/-- Little-endian bytes of a 32-bit value (as written by `evtWrite`). -/
def le32 (n : Nat) : List Nat :=
  [n % 256, n / 256 % 256, n / 2 ^ 16 % 256, n / 2 ^ 24 % 256]

/-- `EVT_READ_WORD_LE`: read a 16-bit little-endian value from a byte list. -/
def rd16 (b : List Nat) (i : Nat) : Nat := b.getD i 0 + 256 * b.getD (i + 1) 0

/-- `EVT_READ_DWORD_LE`: read a 32-bit little-endian value from a byte list. -/
def rd32 (b : List Nat) (i : Nat) : Nat :=
  b.getD i 0 + 256 * b.getD (i + 1) 0 + 2 ^ 16 * b.getD (i + 2) 0 +
    2 ^ 24 * b.getD (i + 3) 0

/-! ### Decimal numerals

`sid.c` renders SID components with `printf "%u"`/`"%llu"`/`"%lu"` and
parses them back with `strtol`/`strtoll`.  We model the decimal numeral of
a natural number and the C parsing loop over lists of characters. -/

/-- Fuel-driven helper for `decDigits` (structural recursion so that the
kernel can evaluate it). -/
def decDigitsGo : Nat → Nat → List Nat
  | 0, _ => []
  | fuel + 1, n => if n < 10 then [n] else decDigitsGo fuel (n / 10) ++ [n % 10]

/-- Most-significant-first decimal digits of a natural number
(`decDigits 0 = [0]`). -/
def decDigits (n : Nat) : List Nat := decDigitsGo (n + 1) n

theorem decDigitsGo_irrel : ∀ f g n, n < f → n < g → decDigitsGo f n = decDigitsGo g n := by
  intro f
  induction f with
  | zero => intro g n h; omega
  | succ f ih =>
    intro g n hf hg
    cases g with
    | zero => omega
    | succ g =>
      simp only [decDigitsGo]
      by_cases h : n < 10
      · simp [h]
      · simp only [h, if_false]
        have hdiv : n / 10 < n := Nat.div_lt_self (by omega) (by omega)
        rw [ih g (n / 10) (by omega) (by omega)]

theorem decDigits_eq (n : Nat) :
    decDigits n = if n < 10 then [n] else decDigits (n / 10) ++ [n % 10] := by
  show decDigitsGo (n + 1) n = _
  rw [decDigitsGo]
  by_cases h : n < 10
  · simp [h]
  · simp only [h, if_false]
    have hdiv : n / 10 < n := Nat.div_lt_self (by omega) (by omega)
    rw [decDigitsGo_irrel n (n / 10 + 1) (n / 10) (by omega) (by omega)]
    rfl

/-- Decimal rendering of a natural number as characters (the output of
`printf` with an unsigned conversion). -/
def renderNat (n : Nat) : List Char := (decDigits n).map (fun d => Char.ofNat (48 + d))

/-- Accumulate most-significant-first decimal digits into a value. -/
def digitsVal (acc : Nat) (ds : List Nat) : Nat := ds.foldl (fun a d => a * 10 + d) acc

theorem digitsVal_append (acc : Nat) (ds es : List Nat) :
    digitsVal acc (ds ++ es) = digitsVal (digitsVal acc ds) es := by
  simp [digitsVal, List.foldl_append]

theorem digitsVal_decDigits (acc n : Nat) :
    digitsVal acc (decDigits n) = acc * 10 ^ (decDigits n).length + n := by
  induction n using Nat.strong_induction_on generalizing acc with
  | _ n ih =>
    rw [decDigits_eq]
    by_cases h : n < 10
    · simp [h, digitsVal]
    · simp only [h, if_false]
      have hd : n / 10 < n := Nat.div_lt_self (by omega) (by omega)
      rw [digitsVal_append, ih (n / 10) hd acc]
      have hstep : digitsVal (acc * 10 ^ (decDigits (n / 10)).length + n / 10) [n % 10]
          = (acc * 10 ^ (decDigits (n / 10)).length + n / 10) * 10 + n % 10 := by
        simp [digitsVal]
      rw [hstep, List.length_append]
      have hmod : 10 * (n / 10) + n % 10 = n := by omega
      calc (acc * 10 ^ (decDigits (n / 10)).length + n / 10) * 10 + n % 10
          = acc * (10 ^ (decDigits (n / 10)).length * 10) + (10 * (n / 10) + n % 10) := by
            ring
        _ = acc * 10 ^ ((decDigits (n / 10)).length + 1) + n := by rw [hmod, pow_succ]
        _ = acc * 10 ^ ((decDigits (n / 10)).length + [n % 10].length) + n := by
            simp

theorem digitsVal_decDigits_zero (n : Nat) : digitsVal 0 (decDigits n) = n := by
  simpa using digitsVal_decDigits 0 n

theorem decDigits_lt_ten (n : Nat) : ∀ d ∈ decDigits n, d < 10 := by
  induction n using Nat.strong_induction_on with
  | _ n ih =>
    rw [decDigits_eq]
    by_cases h : n < 10
    · simp only [h, if_true]
      intro d hd
      simp at hd
      omega
    · simp only [h, if_false]
      intro d hd
      rcases List.mem_append.1 hd with h1 | h2
      · exact ih (n / 10) (Nat.div_lt_self (by omega) (by omega)) d h1
      · simp at h2; omega

theorem decDigits_ne_nil (n : Nat) : decDigits n ≠ [] := by
  rw [decDigits_eq]
  by_cases h : n < 10 <;> simp [h]

/-! ### SID codec (src/unnamed/part_006, sid.c)

The C parses with `strtol`/`strtoll`; on the LP64 host the tool targets
both have 64-bit range, so the model clamps an overflowing value to
`LLONG_MAX = 2^63 - 1` (or `LLONG_MIN = -2^63`), the `ERANGE` behaviour
C99 mandates for these functions.  Multi-byte loads/stores of `uint32_t`
sub-authorities follow the little-endian host the tool targets. -/

/-- The C locale `isspace` set used by `strtol`. -/
def isSpaceCh (c : Char) : Bool :=
  c = ' ' || c = '\t' || c = '\n' || c = Char.ofNat 11 || c = Char.ofNat 12 || c = '\r'

/-- Decimal digit character test. -/
def isDigitCh (c : Char) : Bool := 48 ≤ c.toNat && c.toNat ≤ 57

/-- Take a maximal run of decimal digits, returning their values and the rest. -/
def takeDigits : List Char → List Nat × List Char
  | [] => ([], [])
  | c :: t =>
    if isDigitCh c then
      let p := takeDigits t
      ((c.toNat - 48) :: p.1, p.2)
    else ([], c :: t)

/-- Model of `strtol`/`strtoll` with base 10 on an LP64 host: skip spaces,
optional sign, digits; on no digits the end pointer rolls back to the
input, and a value outside the 64-bit `long`/`long long` range is clamped
to it (the `ERANGE` result). -/
def strtolModel (s : List Char) : Int × List Char :=
  let afterWs := s.dropWhile isSpaceCh
  let sign : Int := if afterWs.head? = some '-' then -1 else 1
  let afterSign :=
    if afterWs.head? = some '-' || afterWs.head? = some '+' then afterWs.tail else afterWs
  let p := takeDigits afterSign
  if p.1.isEmpty then (0, s)
  else (max (-(2 ^ 63)) (min (sign * (digitsVal 0 p.1 : Int)) (2 ^ 63 - 1)), p.2)

theorem takeDigits_sublen (s : List Char) : (takeDigits s).2.length ≤ s.length := by
  induction s with
  | nil => simp [takeDigits]
  | cons c t ih =>
    rw [takeDigits]
    by_cases h : isDigitCh c <;> simp [h]
    omega

theorem dropWhileLenLe (p : Char → Bool) (l : List Char) :
    (l.dropWhile p).length ≤ l.length := by
  induction l with
  | nil => simp
  | cons c t ih =>
    rw [List.dropWhile_cons]
    by_cases h : p c <;> simp [h]
    omega

theorem strtolModel_sublen (s : List Char) : (strtolModel s).2.length ≤ s.length := by
  unfold strtolModel
  simp only []
  set afterWs := s.dropWhile isSpaceCh with hws
  have h1 : afterWs.length ≤ s.length := dropWhileLenLe _ s
  set afterSign :=
    if afterWs.head? = some '-' || afterWs.head? = some '+' then afterWs.tail else afterWs
    with hsgn
  have h2 : afterSign.length ≤ afterWs.length := by
    rw [hsgn]
    split
    · cases afterWs <;> simp
    · exact le_rfl
  have h3 := takeDigits_sublen afterSign
  split
  · simp
  · simp only []
    omega

/-- Header bytes of a binary SID: revision, sub-authority count, and the
48-bit identifier authority packed big-endian from the (two's-complement
64-bit) parsed authority value, as `sidToBinary` stores it. -/
def sidHeadBytes (revision cnt : Nat) (auth : Int) : List Nat :=
  let ab := uint64Of auth
  [revision, cnt, ab / 2 ^ 40 % 256, ab / 2 ^ 32 % 256, ab / 2 ^ 24 % 256,
    ab / 2 ^ 16 % 256, ab / 2 ^ 8 % 256, ab % 256]

/-- Fuel-driven helper for `sidSubAuthLoop`. -/
def sidSubAuthGo : Nat → List Char → Option (List Nat)
  | 0, _ => none
  | _ + 1, [] => some []
  | fuel + 1, _ :: t =>
    let p := strtolModel t
    if p.2.isEmpty then some [uint32Of p.1]
    else if p.2.head? = some '-' then
      (sidSubAuthGo fuel p.2).map (fun r => uint32Of p.1 :: r)
    else none

/-- The sub-authority loop of `sidToBinary`: while the cursor is not at the
end of the string, skip one character (the separator position `cur + 1`),
parse a number, and require the stop character to be a dash or the end. -/
def sidSubAuthLoop (s : List Char) : Option (List Nat) := sidSubAuthGo (s.length + 1) s

theorem sidSubAuthGo_irrel :
    ∀ f g s, s.length < f → s.length < g → sidSubAuthGo f s = sidSubAuthGo g s := by
  intro f
  induction f with
  | zero => intro g s h; omega
  | succ f ih =>
    intro g s hf hg
    cases g with
    | zero => omega
    | succ g =>
      cases s with
      | nil => rfl
      | cons c t =>
        rw [sidSubAuthGo, sidSubAuthGo]
        by_cases h1 : (strtolModel t).2.isEmpty
        · simp [h1]
        · simp only [h1, if_false]
          by_cases h2 : (strtolModel t).2.head? = some '-'
          · simp only [h2, if_true]
            have hl := strtolModel_sublen t
            rw [ih g (strtolModel t).2 (by simp at hf; omega) (by simp at hg; omega)]
          · simp [h2]

theorem sidSubAuthLoop_eq (s : List Char) :
    sidSubAuthLoop s =
      match s with
      | [] => some []
      | _ :: t =>
        let p := strtolModel t
        if p.2.isEmpty then some [uint32Of p.1]
        else if p.2.head? = some '-' then
          (sidSubAuthLoop p.2).map (fun r => uint32Of p.1 :: r)
        else none := by
  show sidSubAuthGo (s.length + 1) s = _
  cases s with
  | nil => rfl
  | cons c t =>
    rw [sidSubAuthGo]
    simp only []
    by_cases h1 : (strtolModel t).2.isEmpty
    · simp [h1]
    · simp only [h1, if_false]
      by_cases h2 : (strtolModel t).2.head? = some '-'
      · simp only [h2, if_true]
        have hl := strtolModel_sublen t
        rw [sidSubAuthGo_irrel (c :: t).length ((strtolModel t).2.length + 1)
          (strtolModel t).2 (by simp; omega) (by omega)]
        rfl
      · simp [h2]

/-- `sidToBinary` from sid.c: text SID to binary SID bytes, `none` on
failure.  The revision must be followed by a dash and lie in `[0, 255]`;
the authority and sub-authorities are stored truncated, not range-checked. -/
def sidToBinary (s : List Char) : Option (List Nat) :=
  if s.getD 0 (Char.ofNat 0) = 'S' ∧ s.getD 1 (Char.ofNat 0) = '-' then
    let rest := s.drop 2
    let pr := strtolModel rest
    if pr.2.head? ≠ some '-' ∨ pr.1 < 0 ∨ 255 < pr.1 then none
    else
      let pa := strtolModel pr.2.tail
      if ¬pa.2.isEmpty ∧ pa.2.head? ≠ some '-' then none
      else
        (sidSubAuthLoop pa.2).map (fun subs =>
          sidHeadBytes pr.1.toNat (subs.length % 256) pa.1 ++ (subs.map le32).flatten)
  else none

/-- `sidToString` from sid.c: binary SID bytes to text, `none` when the
buffer is shorter than the SID header or the declared sub-authorities. -/
def sidToString (sid : List Nat) : Option (List Char) :=
  if sid.length < 8 then none
  else
    let cnt := sid.getD 1 0
    if sid.length < 8 + 4 * cnt then none
    else
      let auth := sid.getD 2 0 * 2 ^ 40 + sid.getD 3 0 * 2 ^ 32 + sid.getD 4 0 * 2 ^ 24 +
        sid.getD 5 0 * 2 ^ 16 + sid.getD 6 0 * 2 ^ 8 + sid.getD 7 0
      some (['S', '-'] ++ renderNat (sid.getD 0 0) ++ ['-'] ++ renderNat auth ++
        ((List.range cnt).map (fun i => '-' :: renderNat (rd32 sid (8 + 4 * i)))).flatten)

theorem digitChar_toNat {d : Nat} (h : d < 10) : (Char.ofNat (48 + d)).toNat = 48 + d := by
  interval_cases d <;> decide

theorem isDigitCh_digitChar {d : Nat} (h : d < 10) :
    isDigitCh (Char.ofNat (48 + d)) = true := by
  interval_cases d <;> decide

theorem digitChar_not_space {d : Nat} (h : d < 10) :
    isSpaceCh (Char.ofNat (48 + d)) = false := by
  interval_cases d <;> decide

theorem digitChar_ne_dash {d : Nat} (h : d < 10) : Char.ofNat (48 + d) ≠ '-' := by
  interval_cases d <;> decide

theorem digitChar_ne_plus {d : Nat} (h : d < 10) : Char.ofNat (48 + d) ≠ '+' := by
  interval_cases d <;> decide

theorem takeDigits_render (ds : List Nat) (rest : List Char)
    (hds : ∀ d ∈ ds, d < 10)
    (hrest : ∀ c, rest.head? = some c → isDigitCh c = false) :
    takeDigits (ds.map (fun d => Char.ofNat (48 + d)) ++ rest) = (ds, rest) := by
  induction ds with
  | nil =>
    simp only [List.map_nil, List.nil_append]
    cases rest with
    | nil => rfl
    | cons c t =>
      rw [takeDigits]
      have := hrest c (by simp)
      simp [this]
  | cons d t ih =>
    have hd : d < 10 := hds d (by simp)
    simp only [List.map_cons, List.cons_append]
    rw [takeDigits]
    rw [isDigitCh_digitChar hd]
    simp only [if_true]
    rw [ih (fun x hx => hds x (by simp [hx]))]
    simp [digitChar_toNat hd]

theorem strtolModel_render_clamp (n : Nat) (rest : List Char)
    (hrest : ∀ c, rest.head? = some c → isDigitCh c = false) :
    strtolModel (renderNat n ++ rest) = (min (n : Int) (2 ^ 63 - 1), rest) := by
  obtain ⟨d0, ds, hcons⟩ := List.exists_cons_of_ne_nil (decDigits_ne_nil n)
  have hd0 : d0 < 10 := decDigits_lt_ten n d0 (by rw [hcons]; simp)
  unfold strtolModel renderNat
  rw [hcons]
  simp only [List.map_cons, List.cons_append]
  have h1 : isSpaceCh (Char.ofNat (48 + d0)) = false := digitChar_not_space hd0
  have h2 : Char.ofNat (48 + d0) ≠ '-' := digitChar_ne_dash hd0
  have h3 : Char.ofNat (48 + d0) ≠ '+' := digitChar_ne_plus hd0
  have htd := takeDigits_render (d0 :: ds) rest
    (by rw [← hcons]; exact decDigits_lt_ten n) hrest
  simp only [List.map_cons, List.cons_append] at htd
  simp only [List.dropWhile_cons, h1, Bool.false_eq_true, if_false, List.head?_cons,
    Option.some.injEq, h2, h3, decide_False, Bool.or_self, htd, List.isEmpty_cons]
  have hval : digitsVal 0 (d0 :: ds) = n := by
    rw [← hcons]; exact digitsVal_decDigits_zero n
  simp only [hval, if_false, Bool.false_eq_true, one_mul, Prod.mk.injEq, and_true]
  omega

theorem strtolModel_render (n : Nat) (rest : List Char)
    (hrest : ∀ c, rest.head? = some c → isDigitCh c = false)
    (hn : n < 2 ^ 63) :
    strtolModel (renderNat n ++ rest) = ((n : Int), rest) := by
  rw [strtolModel_render_clamp n rest hrest]
  rw [Prod.mk.injEq]
  constructor
  · omega
  · rfl

theorem uint64Of_ofNat (n : Nat) : uint64Of n = n % 2 ^ 64 := by
  unfold uint64Of; omega

theorem sidHeadBytes_mod (rev cnt auth : Nat) :
    sidHeadBytes rev cnt (auth : Int) = sidHeadBytes rev cnt ((auth % 2 ^ 48 : Nat) : Int) := by
  simp only [sidHeadBytes, uint64Of_ofNat, List.cons.injEq, and_true, true_and]
  refine ⟨by omega, by omega, by omega, by omega, by omega, by omega⟩

theorem dash_not_digit : ∀ c : Char, (['-'] ++ r).head? = some c → isDigitCh c = false := by
  intro c h
  simp at h
  subst h
  decide

/-- `sidToBinary` on a well-prefixed input with revision, authority and one
sub-authority, all rendered in decimal: the parse accepts it, clamps each
component to the 64-bit `strtol`/`strtoll` range, and stores the authority
truncated to 48 bits and the sub-authority to 32 bits. -/
theorem sidToBinary_render_one_sub (rev auth sa : Nat) (hrev : rev ≤ 255) :
    sidToBinary
        ('S' :: '-' :: (renderNat rev ++ '-' :: (renderNat auth ++ '-' :: renderNat sa)))
      = some (sidHeadBytes rev 1 ((min auth (2 ^ 63 - 1) % 2 ^ 48 : Nat) : Int) ++
          le32 (min sa (2 ^ 63 - 1) % 2 ^ 32)) := by
  unfold sidToBinary
  simp only [List.getD_cons_zero, List.getD_cons_succ, List.drop_succ_cons, List.drop_zero]
  have hpr : strtolModel (renderNat rev ++ '-' :: (renderNat auth ++ '-' :: renderNat sa))
      = ((rev : Int), '-' :: (renderNat auth ++ '-' :: renderNat sa)) := by
    exact strtolModel_render rev _ (by intro c h; simp at h; subst h; decide) (by omega)
  simp only [and_self, if_true]
  rw [hpr]
  simp only [List.head?_cons, Option.some.injEq]
  rw [if_neg (by
    simp only [not_or]
    refine ⟨by simp, by omega, by omega⟩)]
  simp only [List.tail_cons]
  have hcastA : (min (auth : Int) (2 ^ 63 - 1)) = ((min auth (2 ^ 63 - 1) : Nat) : Int) := by
    push_cast
    omega
  have hcastS : (min (sa : Int) (2 ^ 63 - 1)) = ((min sa (2 ^ 63 - 1) : Nat) : Int) := by
    push_cast
    omega
  have hpa : strtolModel (renderNat auth ++ '-' :: renderNat sa)
      = (((min auth (2 ^ 63 - 1) : Nat) : Int), '-' :: renderNat sa) := by
    rw [strtolModel_render_clamp auth _ (by intro c h; simp at h; subst h; decide), hcastA]
  rw [hpa]
  simp only [List.isEmpty_cons, List.head?_cons, Option.some.injEq]
  rw [if_neg (by simp)]
  have hloop : sidSubAuthLoop ('-' :: renderNat sa) =
      some [uint32Of ((min sa (2 ^ 63 - 1) : Nat) : Int)] := by
    rw [sidSubAuthLoop_eq]
    have hsa : strtolModel (renderNat sa ++ []) =
        (((min sa (2 ^ 63 - 1) : Nat) : Int), []) := by
      rw [strtolModel_render_clamp sa [] (by intro c h; simp at h), hcastS]
    simp only [List.append_nil] at hsa
    simp [hsa]
  rw [hloop]
  simp only [Option.map_some']
  have h1 : ((rev : Int)).toNat = rev := by omega
  have h2 : uint32Of ((min sa (2 ^ 63 - 1) : Nat) : Int) = min sa (2 ^ 63 - 1) % 2 ^ 32 :=
    uint32Of_ofNat (min sa (2 ^ 63 - 1))
  rw [h1, h2]
  have h3 : [min sa (2 ^ 63 - 1) % 2 ^ 32].length % 256 = 1 := by simp
  rw [h3, sidHeadBytes_mod rev 1 (min auth (2 ^ 63 - 1))]
  simp

/-- Claim C7, counterexample: the claim says `sidToBinary` fails for any
input with an authority at or above `2^48` or a sub-authority at or above
`2^32`; the code accepts both (truncating the values). -/
theorem C7_sid_range_counterexample :
    (sidToBinary "S-1-281474976710656".toList).isSome = true ∧
      2 ^ 48 ≤ 281474976710656 ∧
      (sidToBinary "S-1-5-4294967296".toList).isSome = true ∧
      2 ^ 32 ≤ 4294967296 := by
  refine ⟨by decide, by decide, by decide, by decide⟩

/-- Claim C7, amended: the encoder fails on a malformed `"S-"` prefix and on
a revision that is not followed by a dash or lies outside `[0, 255]`, but it
does not reject out-of-range numeric components: the authority and each
sub-authority are parsed with the 64-bit `strtoll`/`strtol` clamp (values at
or above `2^63` read as `2^63 - 1`) and stored truncated, the authority
modulo `2^48` and each sub-authority modulo `2^32`, without any range
check.  The decoder fails on every buffer shorter than
`2 + 6 + 4 * subAuthorityCount` bytes. -/
theorem C7_sid_amended :
    (∀ (c0 c1 : Char) (t : List Char), c0 ≠ 'S' ∨ c1 ≠ '-' →
      sidToBinary (c0 :: c1 :: t) = none) ∧
    (∀ (rev : Nat) (rest : List Char), 255 < rev →
      (∀ c, rest.head? = some c → isDigitCh c = false) →
      sidToBinary ('S' :: '-' :: (renderNat rev ++ rest)) = none) ∧
    (∀ (rev auth sa : Nat), rev ≤ 255 →
      sidToBinary
          ('S' :: '-' :: (renderNat rev ++ '-' :: (renderNat auth ++ '-' :: renderNat sa)))
        = some (sidHeadBytes rev 1 ((min auth (2 ^ 63 - 1) % 2 ^ 48 : Nat) : Int) ++
            le32 (min sa (2 ^ 63 - 1) % 2 ^ 32))) ∧
    (∀ sid : List Nat, sid.length < 8 + 4 * sid.getD 1 0 → sidToString sid = none) := by
  refine ⟨?_, ?_, ?_, ?_⟩
  · intro c0 c1 t h
    unfold sidToBinary
    rw [if_neg]
    simp only [List.getD_cons_zero, List.getD_cons_succ]
    tauto
  · intro rev rest hrev hrest
    unfold sidToBinary
    simp only [List.getD_cons_zero, List.getD_cons_succ, List.drop_succ_cons, List.drop_zero]
    simp only [and_self, if_true]
    rw [strtolModel_render_clamp rev rest hrest]
    rw [if_pos]
    right; right
    omega
  · intro rev auth sa hrev
    exact sidToBinary_render_one_sub rev auth sa hrev
  · intro sid h
    unfold sidToString
    by_cases h8 : sid.length < 8
    · simp [h8]
    · rw [if_neg h8, if_pos h]

/-- Witness for `C7_sid_amended` at concrete inputs. -/
theorem C7_sid_amended_witness :
    sidToBinary ('X' :: '-' :: "1-5".toList) = none ∧
      sidToBinary ('S' :: '-' :: (renderNat 300 ++ "-5".toList)) = none ∧
      sidToBinary
          ('S' :: '-' :: (renderNat 1 ++ '-' :: (renderNat 5 ++ '-' :: renderNat 32)))
        = some (sidHeadBytes 1 1 ((min 5 (2 ^ 63 - 1) % 2 ^ 48 : Nat) : Int) ++
            le32 (min 32 (2 ^ 63 - 1) % 2 ^ 32)) ∧
      sidToString [1, 3, 0, 0, 0, 0, 0, 5] = none := by
  refine ⟨C7_sid_amended.1 'X' '-' "1-5".toList (Or.inl (by decide)),
    C7_sid_amended.2.1 300 "-5".toList (by omega) (by intro c h; simp at h; subst h; decide),
    C7_sid_amended.2.2.1 1 5 32 (by omega),
    C7_sid_amended.2.2.2 [1, 3, 0, 0, 0, 0, 0, 5] (by decide)⟩

/-! ### CSV reader and writer (csv.c, second half of src/src/testdatastruct.c)

The reader is the five-state machine of `csvRead`; the writer is
`csvWrite`.  Streams are lists of characters; `EOF` is the end of the
list.  Fields are the character lists a C string holds, so theorems about
the writer carry the hypothesis that fields contain no NUL character. -/

/-- Reader states of `struct CsvReader`. -/
inductive CsvState
  | normal
  | inquotes
  | eor
  | eorEof
  | eofDone
deriving DecidableEq

/-- One `csvRead` result: a field, an end of record, or the end of file. -/
inductive CsvOut
  | fieldOut (f : List Char)
  | eorOut
  | eofOut
deriving DecidableEq

/-- Fuel-driven body of `csvRead`: process the stream in state `st` with
the token accumulated so far (in reverse), returning the result, the new
state and the remaining stream.  Every loop iteration of the C consumes at
least one character, so any fuel above the stream length is adequate. -/
def csvReadGo : Nat → CsvState → List Char → List Char → CsvOut × CsvState × List Char
  | 0, st, s, _ => (.eofOut, st, s)
  | _ + 1, .normal, [], acc => (.fieldOut acc.reverse, .eorEof, [])
  | fuel + 1, .normal, c :: t, acc =>
    if c = ',' then (.fieldOut acc.reverse, .normal, t)
    else if c = '\r' then
      match t with
      | [] => (.fieldOut acc.reverse, .eor, [])
      | c2 :: t2 =>
        if c2 = '\n' then (.fieldOut acc.reverse, .eor, t2)
        else (.fieldOut acc.reverse, .eor, c2 :: t2)
    else if c = '\n' then (.fieldOut acc.reverse, .eor, t)
    else if c = '"' then csvReadGo fuel .inquotes t acc
    else csvReadGo fuel .normal t (c :: acc)
  | _ + 1, .inquotes, [], acc => (.fieldOut acc.reverse, .eorEof, [])
  | fuel + 1, .inquotes, c :: t, acc =>
    if c = '"' then
      match t with
      | [] => csvReadGo fuel .normal [] acc
      | c2 :: t2 =>
        if c2 = '"' then csvReadGo fuel .inquotes t2 ('"' :: acc)
        else csvReadGo fuel .normal (c2 :: t2) acc
    else csvReadGo fuel .inquotes t (c :: acc)
  | _ + 1, .eor, s, _ => (.eorOut, .normal, s)
  | _ + 1, .eorEof, s, _ => (.eorOut, .eofDone, s)
  | _ + 1, .eofDone, s, _ => (.eofOut, .eofDone, s)

/-- Fuel-free view of the reader body (adequate fuel supplied). -/
def csvGoF (st : CsvState) (s : List Char) (acc : List Char) :
    CsvOut × CsvState × List Char :=
  csvReadGo (s.length + 1) st s acc

/-- One `csvRead` call (fresh token buffer). -/
def csvRead (st : CsvState) (s : List Char) : CsvOut × CsvState × List Char :=
  csvGoF st s []

/-- Iterate `csvRead` a given number of times, collecting the results. -/
def csvReadSeq : Nat → CsvState → List Char → List CsvOut × CsvState × List Char
  | 0, st, s => ([], st, s)
  | n + 1, st, s =>
    let r := csvRead st s
    let rs := csvReadSeq n r.2.1 r.2.2
    (r.1 :: rs.1, rs.2.1, rs.2.2)

/-- `mustBeQuoted` from csv.c. -/
def mustBeQuoted (c : Char) : Bool := c = '\n' || c = '\r' || c = '"' || c = ','

/-- The characters `csvWrite` emits for one field: raw unless the field is
empty or contains a character that must be quoted, in which case it is
wrapped in double quotes with embedded double quotes doubled. -/
def csvFieldText (f : List Char) : List Char :=
  if f.any mustBeQuoted || f.isEmpty then
    '"' :: f.flatMap (fun c => if c = '"' then ['"', '"'] else [c]) ++ ['"']
  else f

/-- The stream produced by writing each field with `csvWrite` (a comma
before every field but the first) and ending the record with a
`csvWrite (wrt, NULL)`, which emits a bare line feed. -/
def csvWriteRecord (fields : List (List Char)) : List Char :=
  match fields with
  | [] => ['\n']
  | f :: rest => csvFieldText f ++ rest.flatMap (fun g => ',' :: csvFieldText g) ++ ['\n']

theorem csvReadGo_normal_nil (f : Nat) (acc : List Char) :
    csvReadGo (f + 1) .normal [] acc = (.fieldOut acc.reverse, .eorEof, []) := rfl

theorem csvReadGo_normal_cons (f : Nat) (c : Char) (t acc : List Char) :
    csvReadGo (f + 1) .normal (c :: t) acc =
      if c = ',' then (.fieldOut acc.reverse, .normal, t)
      else if c = '\r' then
        match t with
        | [] => (.fieldOut acc.reverse, .eor, [])
        | c2 :: t2 =>
          if c2 = '\n' then (.fieldOut acc.reverse, .eor, t2)
          else (.fieldOut acc.reverse, .eor, c2 :: t2)
      else if c = '\n' then (.fieldOut acc.reverse, .eor, t)
      else if c = '"' then csvReadGo f .inquotes t acc
      else csvReadGo f .normal t (c :: acc) := rfl

theorem csvReadGo_inquotes_nil (f : Nat) (acc : List Char) :
    csvReadGo (f + 1) .inquotes [] acc = (.fieldOut acc.reverse, .eorEof, []) := rfl

theorem csvReadGo_inquotes_cons (f : Nat) (c : Char) (t acc : List Char) :
    csvReadGo (f + 1) .inquotes (c :: t) acc =
      if c = '"' then
        match t with
        | [] => csvReadGo f .normal [] acc
        | c2 :: t2 =>
          if c2 = '"' then csvReadGo f .inquotes t2 ('"' :: acc)
          else csvReadGo f .normal (c2 :: t2) acc
      else csvReadGo f .inquotes t (c :: acc) := rfl

theorem csvReadGo_irrel :
    ∀ f g st s acc, s.length < f → s.length < g →
      csvReadGo f st s acc = csvReadGo g st s acc := by
  intro f
  induction f with
  | zero => intro g st s acc h; omega
  | succ f ih =>
    intro g st s acc hf hg
    cases g with
    | zero => omega
    | succ g =>
      cases st with
      | eor => rfl
      | eorEof => rfl
      | eofDone => rfl
      | normal =>
        cases s with
        | nil => rfl
        | cons c t =>
          rw [csvReadGo_normal_cons, csvReadGo_normal_cons]
          have hl : (c :: t).length = t.length + 1 := rfl
          by_cases h1 : c = ','
          · simp [h1]
          · by_cases h2 : c = '\r'
            · simp [h1, h2]
            · by_cases h3 : c = '\n'
              · simp [h1, h2, h3]
              · by_cases h4 : c = '"'
                · simp only [h1, h2, h3, h4, if_true, if_false]
                  exact ih g .inquotes t acc (by omega) (by omega)
                · simp only [h1, h2, h3, h4, if_false]
                  exact ih g .normal t (c :: acc) (by omega) (by omega)
      | inquotes =>
        cases s with
        | nil => rfl
        | cons c t =>
          rw [csvReadGo_inquotes_cons, csvReadGo_inquotes_cons]
          have hl : (c :: t).length = t.length + 1 := rfl
          by_cases h1 : c = '"'
          · simp only [h1, if_true]
            cases t with
            | nil => exact ih g .normal [] acc (by omega) (by omega)
            | cons c2 t2 =>
              have hl2 : (c2 :: t2).length = t2.length + 1 := rfl
              by_cases h2 : c2 = '"'
              · simp only [h2, if_true]
                exact ih g .inquotes t2 ('"' :: acc) (by omega) (by omega)
              · simp only [h2, if_false]
                exact ih g .normal (c2 :: t2) acc (by omega) (by omega)
          · simp only [h1, if_false]
            exact ih g .inquotes t (c :: acc) (by omega) (by omega)

theorem csvGoF_comma (t acc : List Char) :
    csvGoF .normal (',' :: t) acc = (.fieldOut acc.reverse, .normal, t) := rfl

theorem csvGoF_lf (t acc : List Char) :
    csvGoF .normal ('\n' :: t) acc = (.fieldOut acc.reverse, .eor, t) := rfl

theorem csvGoF_openQuote (t acc : List Char) :
    csvGoF .normal ('"' :: t) acc = csvReadGo (t.length + 1) .inquotes t acc := rfl

theorem csvGoF_openQuote' (t acc : List Char) :
    csvGoF .normal ('"' :: t) acc = csvGoF .inquotes t acc := rfl

theorem csvGoF_push (c : Char) (t acc : List Char) (h1 : c ≠ ',') (h2 : c ≠ '\r')
    (h3 : c ≠ '\n') (h4 : c ≠ '"') :
    csvGoF .normal (c :: t) acc = csvGoF .normal t (c :: acc) := by
  show csvReadGo (t.length + 1 + 1) .normal (c :: t) acc = _
  rw [csvReadGo_normal_cons]
  simp only [h1, h2, h3, h4, if_false]
  rfl

theorem csvGoF_quotePair (t2 acc : List Char) :
    csvGoF .inquotes ('"' :: '"' :: t2) acc = csvGoF .inquotes t2 ('"' :: acc) := by
  show csvReadGo (t2.length + 1 + 2) .inquotes ('"' :: '"' :: t2) acc = _
  rw [csvReadGo_inquotes_cons]
  simp only [if_pos rfl]
  exact csvReadGo_irrel (t2.length + 2) (t2.length + 1) .inquotes t2 ('"' :: acc)
    (by omega) (by omega)

theorem csvGoF_closeQuote (c2 : Char) (t2 acc : List Char) (h : c2 ≠ '"') :
    csvGoF .inquotes ('"' :: c2 :: t2) acc = csvGoF .normal (c2 :: t2) acc := by
  show csvReadGo (t2.length + 1 + 2) .inquotes ('"' :: c2 :: t2) acc = _
  rw [csvReadGo_inquotes_cons]
  simp only [if_pos rfl, h, if_false]
  rfl

theorem csvGoF_quotePush (c : Char) (t acc : List Char) (h : c ≠ '"') :
    csvGoF .inquotes (c :: t) acc = csvGoF .inquotes t (c :: acc) := by
  show csvReadGo (t.length + 1 + 1) .inquotes (c :: t) acc = _
  rw [csvReadGo_inquotes_cons]
  simp only [h, if_false]
  rfl

theorem csvGoF_raw_field (f : List Char) (hf : ∀ c ∈ f, mustBeQuoted c = false) :
    ∀ acc rest c0, c0 = ',' ∨ c0 = '\n' →
      csvGoF .normal (f ++ c0 :: rest) acc =
        (.fieldOut (acc.reverse ++ f), if c0 = ',' then CsvState.normal else .eor, rest) := by
  induction f with
  | nil =>
    intro acc rest c0 hc0
    simp only [List.nil_append]
    rcases hc0 with h | h
    · subst h
      rw [csvGoF_comma]
      simp
    · subst h
      rw [csvGoF_lf]
      simp
  | cons c t ih =>
    intro acc rest c0 hc0
    have hc : mustBeQuoted c = false := hf c (by simp)
    simp only [mustBeQuoted, Bool.or_eq_false_iff, decide_eq_false_iff_not] at hc
    obtain ⟨⟨⟨hn1, hn2⟩, hn3⟩, hn4⟩ := hc
    simp only [List.cons_append]
    rw [csvGoF_push c _ acc hn4 hn2 hn1 hn3]
    rw [ih (fun x hx => hf x (by simp [hx])) (c :: acc) rest c0 hc0]
    simp

theorem csvGoF_quoted_body (f : List Char) :
    ∀ acc rest c0, c0 ≠ '"' →
      csvGoF .inquotes
          (f.flatMap (fun c => if c = '"' then ['"', '"'] else [c]) ++ '"' :: c0 :: rest) acc
        = csvGoF .normal (c0 :: rest) (f.reverse ++ acc) := by
  induction f with
  | nil =>
    intro acc rest c0 hc0
    show csvGoF .inquotes ('"' :: c0 :: rest) acc = _
    rw [csvGoF_closeQuote c0 rest acc hc0]
    simp
  | cons c t ih =>
    intro acc rest c0 hc0
    by_cases hc : c = '"'
    · subst hc
      show csvGoF .inquotes
          ('"' :: '"' :: (t.flatMap (fun c => if c = '"' then ['"', '"'] else [c])
            ++ '"' :: c0 :: rest)) acc = _
      rw [csvGoF_quotePair]
      rw [ih ('"' :: acc) rest c0 hc0]
      simp
    · rw [List.flatMap_cons]
      simp only [hc, if_false, List.singleton_append, List.cons_append, List.append_assoc,
        List.nil_append]
      rw [csvGoF_quotePush c _ acc hc]
      rw [ih (c :: acc) rest c0 hc0]
      simp

theorem csvGoF_field (f : List Char) (rest : List Char) (c0 : Char)
    (hc0 : c0 = ',' ∨ c0 = '\n') :
    csvGoF .normal (csvFieldText f ++ c0 :: rest) []
      = (.fieldOut f, if c0 = ',' then CsvState.normal else .eor, rest) := by
  unfold csvFieldText
  by_cases hq : (f.any mustBeQuoted || f.isEmpty) = true
  · rw [if_pos hq]
    have hc0q : c0 ≠ '"' := by rcases hc0 with h | h <;> rw [h] <;> decide
    simp only [List.cons_append, List.append_assoc, List.singleton_append, List.nil_append]
    rw [csvGoF_openQuote']
    rw [csvGoF_quoted_body f [] rest c0 hc0q]
    rcases hc0 with h | h
    · subst h
      rw [csvGoF_comma]
      simp
    · subst h
      rw [csvGoF_lf]
      simp
  · rw [if_neg hq]
    simp only [Bool.or_eq_true, not_or, Bool.not_eq_true] at hq
    have hf : ∀ c ∈ f, mustBeQuoted c = false := by
      intro c hcf
      have := List.any_eq_false.mp hq.1 c hcf
      simpa using this
    rw [csvGoF_raw_field f hf [] rest c0 hc0]
    simp

theorem csvWriteRecord_cons_cons (f g : List Char) (t : List (List Char)) :
    csvWriteRecord (f :: g :: t) = csvFieldText f ++ ',' :: csvWriteRecord (g :: t) := by
  simp [csvWriteRecord, List.flatMap_cons]

theorem csvReadSeq_cons (n : Nat) (st : CsvState) (s : List Char) (o : CsvOut)
    (st' : CsvState) (s' : List Char) (h : csvRead st s = (o, st', s')) :
    csvReadSeq (n + 1) st s
      = (o :: (csvReadSeq n st' s').1, (csvReadSeq n st' s').2.1, (csvReadSeq n st' s').2.2) := by
  simp only [csvReadSeq, h]

/-- Claim C9, counterexample: writing the empty sequence of fields (just a
terminating NULL field) emits a bare line feed, and reading that back
yields one empty field before the end of record, not zero fields. -/
theorem C9_csv_counterexample :
    csvRead .normal (csvWriteRecord []) = (.fieldOut [], .eor, []) ∧
      CsvOut.fieldOut [] ≠ CsvOut.eorOut := by
  exact ⟨by decide, by decide⟩

/-- Claim C9, amended to nonempty field sequences: a nonempty field without
comma, double quote, CR, LF is emitted verbatim; an empty field or one with
such a character is emitted quoted with embedded quotes doubled; and any
nonempty sequence of fields written by `csvWrite` (with the record ended by
a NULL field) reads back as the same fields in order followed by an
end-of-record.  Fields are C strings, hence the no-NUL hypothesis. -/
theorem C9_csv_roundtrip :
    (∀ f : List Char, f ≠ [] → f.any mustBeQuoted = false → csvFieldText f = f) ∧
    (∀ f : List Char, f.any mustBeQuoted = true ∨ f = [] →
      csvFieldText f
        = '"' :: f.flatMap (fun c => if c = '"' then ['"', '"'] else [c]) ++ ['"']) ∧
    (∀ fs : List (List Char), fs ≠ [] → (∀ f ∈ fs, Char.ofNat 0 ∉ f) →
      csvReadSeq (fs.length + 1) .normal (csvWriteRecord fs)
        = (fs.map CsvOut.fieldOut ++ [CsvOut.eorOut], .normal, [])) := by
  refine ⟨?_, ?_, ?_⟩
  · intro f hne hq
    unfold csvFieldText
    simp [hq, hne]
  · intro f h
    unfold csvFieldText
    rcases h with h | h
    · simp [h]
    · simp [h]
  · have aux : ∀ (t : List (List Char)) (f : List Char),
        csvReadSeq ((f :: t).length + 1) .normal (csvWriteRecord (f :: t))
          = ((f :: t).map CsvOut.fieldOut ++ [CsvOut.eorOut], .normal, []) := by
      intro t
      induction t with
      | nil =>
        intro f
        have hw : csvWriteRecord [f] = csvFieldText f ++ '\n' :: [] := by
          simp [csvWriteRecord]
        have h1 : csvRead .normal (csvWriteRecord [f]) = (.fieldOut f, .eor, []) := by
          rw [hw]
          show csvGoF .normal (csvFieldText f ++ '\n' :: []) [] = _
          rw [csvGoF_field f [] '\n' (Or.inr rfl)]
          simp
        rw [show ([f] : List (List Char)).length + 1 = 1 + 1 from rfl]
        rw [csvReadSeq_cons 1 _ _ _ _ _ h1]
        have h2 : csvReadSeq 1 CsvState.eor [] = ([CsvOut.eorOut], .normal, []) := by decide
        rw [h2]
        simp
      | cons g t ih =>
        intro f
        have h1 : csvRead .normal (csvWriteRecord (f :: g :: t))
            = (.fieldOut f, .normal, csvWriteRecord (g :: t)) := by
          rw [csvWriteRecord_cons_cons]
          show csvGoF .normal (csvFieldText f ++ ',' :: csvWriteRecord (g :: t)) [] = _
          rw [csvGoF_field f (csvWriteRecord (g :: t)) ',' (Or.inl rfl)]
          simp
        rw [show ((f :: g :: t) : List (List Char)).length + 1
            = ((g :: t).length + 1) + 1 from rfl]
        rw [csvReadSeq_cons ((g :: t).length + 1) _ _ _ _ _ h1]
        rw [ih g]
        simp
    intro fs hne _
    cases fs with
    | nil => exact absurd rfl hne
    | cons f t => exact aux t f

theorem C9_csv_roundtrip_witness :
    csvFieldText ['a'] = ['a'] ∧
    csvFieldText []
      = '"' :: ([] : List Char).flatMap
          (fun c => if c = '"' then ['"', '"'] else [c]) ++ ['"'] ∧
    csvReadSeq ([['a']].length + 1) .normal (csvWriteRecord [['a']])
      = ([['a']].map CsvOut.fieldOut ++ [CsvOut.eorOut], .normal, []) :=
  ⟨C9_csv_roundtrip.1 ['a'] (by decide) (by decide),
   C9_csv_roundtrip.2.1 [] (Or.inr rfl),
   C9_csv_roundtrip.2.2 [['a']] (by decide) (by decide)⟩

/-! ### UTF-8 / UTF-16LE conversion (src/src/widechar.c)

A valid UTF-8 C string is modelled as its list of Unicode scalar values
(each nonzero, below 0x110000 and not a surrogate).  `encodeMBString`
converts to UTF-16LE including the terminating NUL code unit and returns
the byte count; `decodeWideString` scans for the NUL code unit within
`maxLength` bytes and converts back, failing exactly where `iconv` fails
(ill-formed UTF-16) or where the scan exceeds `maxLength`.  Bytes outside
the C buffer are undefined reads; the model supplies them through the
accessor function (out-of-range list reads default to 0). -/

/-- Scalar values a nonempty position of a UTF-8 C string can hold. -/
def validScalar (c : Nat) : Bool :=
  decide (0 < c) && decide (c < 0x110000) && !(decide (0xD800 ≤ c) && decide (c < 0xE000))

/-- UTF-16 code units of one scalar value. -/
def utf16Units (c : Nat) : List Nat :=
  if c < 0x10000 then [c]
  else [0xD800 + (c - 0x10000) / 0x400, 0xDC00 + (c - 0x10000) % 0x400]

/-- Little-endian bytes of a list of 16-bit code units. -/
def utf16BytesLE (us : List Nat) : List Nat := us.flatMap (fun u => [u % 256, u / 256 % 256])

/-- `encodeMBString`: UTF-8 to UTF-16LE with terminator; the byte count is
the length of the returned list.  Fails (returns 0 in C) on ill-formed
input, i.e. on a scalar outside the valid range. -/
def encodeMBString (s : List Nat) : Option (List Nat) :=
  if s.all validScalar then some (utf16BytesLE (s.flatMap utf16Units ++ [0])) else none

/-- Decode a UTF-16 code-unit sequence to scalar values; `none` on an
unpaired or misplaced surrogate (where `iconv` fails). -/
def utf16Decode : List Nat → Option (List Nat)
  | [] => some []
  | u :: rest =>
    if u < 0xD800 || decide (0xE000 ≤ u) then (utf16Decode rest).map (fun r => u :: r)
    else if u < 0xDC00 then
      match rest with
      | [] => none
      | v :: rest2 =>
        if 0xDC00 ≤ v && v < 0xE000 then
          (utf16Decode rest2).map (fun r => (0x10000 + (u - 0xD800) * 0x400 + (v - 0xDC00)) :: r)
        else none
    else none

/-- The 16-bit code unit number `k` of the pointed-to wide string. -/
def unitAt (byte : Nat → Nat) (k : Nat) : Nat := byte (2 * k) + 256 * byte (2 * k + 1)

/-- The terminator scan of `decodeWideString` (`for (i = in; *i++;) ...`):
read unit `k`; stop on NUL with `k + 1` units consumed; after consuming a
nonzero unit fail if the consumed bytes exceed `maxLength`.  Fuel above
`maxLength` is adequate because every continuation requires
`2 * (k + 1) ≤ maxLength`. -/
def scanWideGo : Nat → (Nat → Nat) → Int → Nat → Option Nat
  | 0, _, _, _ => none
  | fuel + 1, unit, maxLength, k =>
    if unit k = 0 then some (k + 1)
    else if (2 * (k + 1) : Int) > maxLength then none
    else scanWideGo fuel unit maxLength (k + 1)

/-- `decodeWideString` from widechar.c over a byte accessor: returns the
decoded scalars and the number of bytes consumed including the NUL pair. -/
def decodeWideString (byte : Nat → Nat) (maxLength : Int) : Option (List Nat × Nat) :=
  if maxLength ≤ 0 then none
  else
    match scanWideGo (maxLength.toNat + 1) (unitAt byte) maxLength 0 with
    | none => none
    | some units =>
      match utf16Decode ((List.range (units - 1)).map (unitAt byte)) with
      | none => none
      | some scalars => some (scalars, 2 * units)

/-- Byte offsets (relative to the passed pointer) read by the terminator
scan of `decodeWideString`; transcribes the same loop as `scanWideGo`. -/
def scanAccessGo : Nat → (Nat → Nat) → Int → Nat → List Nat
  | 0, _, _, _ => []
  | fuel + 1, unit, maxLength, k =>
    if unit k = 0 then [2 * k, 2 * k + 1]
    else if (2 * (k + 1) : Int) > maxLength then [2 * k, 2 * k + 1]
    else 2 * k :: (2 * k + 1) :: scanAccessGo fuel unit maxLength (k + 1)

/-- All byte offsets the `decodeWideString` terminator scan reads. -/
def scanAccesses (byte : Nat → Nat) (maxLength : Int) : List Nat :=
  if maxLength ≤ 0 then [] else scanAccessGo (maxLength.toNat + 1) (unitAt byte) maxLength 0

/-! ### Byte buffer (src/unnamed/part_000, datastruct.c) -/

/-- Zero padding inserted by `bufferAppend` to align the cursor.  The C
skips the alignment step for a buffer that was never allocated; its cursor
is then 0, which needs no padding, so the formula covers that case too. -/
def bufPad (len align : Nat) : Nat :=
  if align ≤ 1 then 0 else (align - len % align) % align

/-- `bufferAppend`: pad to `align`, append the bytes, return the new buffer
and the offset at which the data begin. -/
def bufferAppend (buf bytes : List Nat) (align : Nat) : List Nat × Nat :=
  let pad := bufPad buf.length align
  (buf ++ List.replicate pad 0 ++ bytes, buf.length + pad)

/-! ### Record codec (src/src/evt.c, data manipulation section)

Header fields are C `uint32_t`/`uint16_t` values; the model stores `Nat`
and reduces at each narrowing store exactly where the C does.  The decode
bounds checks reproduce the C comparisons verbatim, including their
unsigned wrap-arounds. -/

/-- `EvtRecordHeader` (evt.h), field for field. -/
structure EvtRecordHeader where
  length : Nat
  reserved : Nat
  recordNumber : Nat
  timeGenerated : Nat
  timeWritten : Nat
  eventID : Nat
  eventType : Nat
  numStrings : Nat
  eventCategory : Nat
  reservedFlags : Nat
  closingRecordNumber : Nat
  stringOffset : Nat
  userSidLength : Nat
  userSidOffset : Nat
  dataLength : Nat
  dataOffset : Nat
deriving DecidableEq

/-- The all-zero record header. -/
def zeroRecordHeader : EvtRecordHeader := ⟨0, 0, 0, 0, 0, 0, 0, 0, 0, 0, 0, 0, 0, 0, 0, 0⟩

/-- `EvtRecordData` (evt.h): raw record header plus the following bytes. -/
structure EvtRecordData where
  header : EvtRecordHeader
  dataLength : Nat
  data : Option (List Nat)
deriving DecidableEq

/-- `EvtRecordContents` as the encoder consumes it (all pointers non-NULL
except the optional SID; `numStrings`/`dataLength` equal the lengths of
their arrays, as every caller guarantees). -/
structure EvtRecordContents where
  timeGenerated : Nat
  timeWritten : Nat
  strings : List (List Nat)
  userSid : Option (List Char)
  sourceName : List Nat
  computerName : List Nat
  data : List Nat
deriving DecidableEq

/-- `EvtRecordContents` as the decoder produces it: fields that failed to
decode (or were never assigned) are `none`. -/
structure EvtDecodedContents where
  timeGenerated : Nat
  timeWritten : Nat
  numStrings : Nat
  strings : List (List Nat)
  userSid : Option (List Char)
  sourceName : Option (List Nat)
  computerName : Option (List Nat)
  dataLength : Nat
  data : Option (List Nat)
deriving DecidableEq

/-- The zeroed output `memset` produces for an invalid record. -/
def zeroDecodedContents : EvtDecodedContents := ⟨0, 0, 0, [], none, none, none, 0, none⟩

def EVT_DECODE_INVALID : Nat := 1
def EVT_DECODE_SOURCE_NAME_FAILED : Nat := 2
def EVT_DECODE_COMPUTER_NAME_FAILED : Nat := 4
def EVT_DECODE_STRINGS_FAILED : Nat := 8
def EVT_DECODE_SID_OVERFLOW : Nat := 16
def EVT_DECODE_SID_FAILED : Nat := 32
def EVT_DECODE_DATA_OVERFLOW : Nat := 64
def EVT_DECODE_LENGTH_MISMATCH : Nat := 128

def EVT_ENCODE_SOURCE_NAME_FAILED : Nat := 1
def EVT_ENCODE_COMPUTER_NAME_FAILED : Nat := 2
def EVT_ENCODE_STRINGS_FAILED : Nat := 4
def EVT_ENCODE_SID_FAILED : Nat := 8

/-- `size_t` subtraction `a - b` (modulo `2^64`). -/
def sizeSub (a b : Nat) : Nat := (a % 2 ^ 64 + 2 ^ 64 - b % 2 ^ 64) % 2 ^ 64

/-- Read a byte at a possibly negative offset from a list pointer; reads
outside the buffer are undefined in C and modelled as 0. -/
def byteAtI (d : List Nat) (i : Int) : Nat := if i < 0 then 0 else d.getD i.toNat 0

/-- One step of the message-string encoding loop of `evtEncodeRecordData`:
encode the string and append it (unaligned), or raise the strings bit. -/
def encStringsStep (acc : List Nat × Nat) (s : List Nat) : List Nat × Nat :=
  match acc with
  | (buf, errs) =>
    match encodeMBString s with
    | some w => ((bufferAppend buf w 0).1, errs)
    | none => (buf, errs ||| EVT_ENCODE_STRINGS_FAILED)

/-- `evtEncodeRecordData` from evt.c.  `hdr0` holds the header fields the
function does not assign (the caller's existing values).  Returns the
encoded record (or `none` when any error bit was raised, in which case the
buffer is released) together with the error bit set. -/
def evtEncodeRecordPayload (input : EvtRecordContents) (hdr0 : EvtRecordHeader) :
    Option (List Nat × EvtRecordHeader) × Nat :=
  let h1 := { hdr0 with
    timeGenerated := input.timeGenerated % 2 ^ 32
    timeWritten := input.timeWritten % 2 ^ 32 }
  match (match encodeMBString input.sourceName with
    | some w => ((bufferAppend [] w 0).1, 0)
    | none => ([], EVT_ENCODE_SOURCE_NAME_FAILED) : List Nat × Nat) with
  | (buf1, errs1) =>
  match (match encodeMBString input.computerName with
    | some w => ((bufferAppend buf1 w 0).1, errs1)
    | none => (buf1, errs1 ||| EVT_ENCODE_COMPUTER_NAME_FAILED) : List Nat × Nat) with
  | (buf2, errs2) =>
  match (match input.userSid with
    | none => (buf2, errs2, { h1 with userSidLength := 0, userSidOffset := 0 })
    | some txt =>
      match sidToBinary txt with
      | some sid =>
        match bufferAppend buf2 sid 4 with
        | (b, off) =>
          (b, errs2, { h1 with
            userSidOffset := (56 + off) % 2 ^ 32
            userSidLength := sid.length % 2 ^ 32 })
      | none => (buf2, errs2 ||| EVT_ENCODE_SID_FAILED, h1) :
      List Nat × Nat × EvtRecordHeader) with
  | (buf3, errs3, h2) =>
  let h3 := { h2 with
    stringOffset := (56 + buf3.length) % 2 ^ 32
    numStrings := input.strings.length % 2 ^ 16 }
  match input.strings.foldl encStringsStep (buf3, errs3) with
  | (buf4, errs4) =>
  if errs4 ≠ 0 then (none, errs4)
  else
    match bufferAppend buf4 input.data 0 with
    | (buf5, doff) =>
      (some (buf5, { h3 with
        dataLength := input.data.length % 2 ^ 32
        dataOffset := (56 + doff) % 2 ^ 32 }), 0)

/-- `evtEncodeRecordData` from evt.c: `evtEncodeRecordPayload` accumulates
the payload through the unspecified-data append; then the total length is
computed, stored, and appended DWORD-aligned in little endian. -/
def evtEncodeRecordData (input : EvtRecordContents) (hdr0 : EvtRecordHeader) :
    Option EvtRecordData × Nat :=
  match evtEncodeRecordPayload input hdr0 with
  | (none, errs) => (none, errs)
  | (some (buf5, h4), _) =>
    let totalLen := (56 + buf5.length + 4 + 4 - 1) / 4 * 4 % 2 ^ 32
    match bufferAppend buf5 (le32 totalLen) 4 with
    | (buf6, _) =>
      (some ⟨{ h4 with length := totalLen }, buf6.length, some buf6⟩, 0)

/-- The message-string loop of `evtDecodeRecordData`: decode until
`numStrings` strings are recovered or a decode fails.  Returns the strings
decoded so far and whether the loop stopped on a failure. -/
def decodeStringsGo : Nat → List Nat → Nat → Int → List (List Nat) → List (List Nat) × Bool
  | 0, _, _, _, acc => (acc.reverse, false)
  | n + 1, d, dl, offset, acc =>
    match decodeWideString (fun i => byteAtI d (offset + i))
        (asInt32 (sizeSub dl (uint64Of offset))) with
    | none => (acc.reverse, true)
    | some (s, len) => decodeStringsGo n d dl (offset + len) (s :: acc)

/-- The source-name/computer-name block of `evtDecodeRecordData` (evt.c),
including the `memset`-produced base output with the copied timestamps. -/
def evtDecodeNames (d : List Nat) (dl : Nat) (hdr : EvtRecordHeader) :
    EvtDecodedContents × Nat :=
  let base := { zeroDecodedContents with
    timeGenerated := hdr.timeGenerated
    timeWritten := hdr.timeWritten }
  match decodeWideString (fun i => d.getD i 0) (asInt32 dl) with
  | some (src, len1) =>
    (match decodeWideString (fun i => d.getD (len1 + i) 0)
        (asInt32 (sizeSub dl len1)) with
    | some (comp, _) =>
      ({ base with sourceName := some src, computerName := some comp }, 0)
    | none =>
      ({ base with sourceName := some src, computerName := none },
        EVT_DECODE_COMPUTER_NAME_FAILED))
  | none =>
    ({ base with sourceName := none }, EVT_DECODE_SOURCE_NAME_FAILED)

/-- The message-strings block of `evtDecodeRecordData` (evt.c). -/
def evtDecodeStringsStage (d : List Nat) (dl : Nat) (hdr : EvtRecordHeader) :
    EvtDecodedContents × Nat → EvtDecodedContents × Nat
  | (out1, errs1) =>
    if hdr.numStrings ≠ 0 then
      match decodeStringsGo hdr.numStrings d dl
          (asInt32 ((hdr.stringOffset + 2 ^ 32 - 56 % 2 ^ 32) % 2 ^ 32)) [] with
      | (strs, failed) =>
        ({ out1 with numStrings := strs.length, strings := strs },
          if failed then errs1 ||| EVT_DECODE_STRINGS_FAILED else errs1)
    else ({ out1 with numStrings := 0, strings := [] }, errs1)

/-- The SID block of `evtDecodeRecordData` (evt.c), with the overflow guard
transcribed verbatim (its header-relative offset is compared against
`dataLength - 56 - 4` even though 56 was already subtracted once). -/
def evtDecodeSidStage (d : List Nat) (dl : Nat) (hdr : EvtRecordHeader) :
    EvtDecodedContents × Nat → EvtDecodedContents × Nat
  | (out2, errs2) =>
    if (hdr.userSidOffset + hdr.userSidLength) % 2 ^ 32 >
        sizeSub (sizeSub dl 56) 4 then
      ({ out2 with userSid := none }, errs2 ||| EVT_DECODE_SID_OVERFLOW)
    else if hdr.userSidLength ≠ 0 then
      match sidToString ((List.range hdr.userSidLength).map
          (fun i => byteAtI d ((hdr.userSidOffset : Int) - 56 + i))) with
      | some txt => ({ out2 with userSid := some txt }, errs2)
      | none => ({ out2 with userSid := none }, errs2 ||| EVT_DECODE_SID_FAILED)
    else ({ out2 with userSid := none }, errs2)

/-- The unspecified-data block of `evtDecodeRecordData` (evt.c), with the
same double-subtracted overflow guard as the SID block. -/
def evtDecodeDataStage (d : List Nat) (dl : Nat) (hdr : EvtRecordHeader) :
    EvtDecodedContents × Nat → EvtDecodedContents × Nat
  | (out3, errs3) =>
    if (hdr.dataOffset + hdr.dataLength) % 2 ^ 32 >
        sizeSub (sizeSub dl 56) 4 then
      ({ out3 with data := none, dataLength := 0 }, errs3 ||| EVT_DECODE_DATA_OVERFLOW)
    else
      ({ out3 with
        data := some ((List.range hdr.dataLength).map
          (fun i => byteAtI d ((hdr.dataOffset : Int) - 56 + i)))
        dataLength := hdr.dataLength }, errs3)

/-- The trailing-length check of `evtDecodeRecordData` (evt.c). -/
def evtDecodeTrailerStage (d : List Nat) (dl : Nat) (hdr : EvtRecordHeader) :
    EvtDecodedContents × Nat → EvtDecodedContents × Nat
  | (out4, errs4) =>
    if rd32 d (dl - 4) ≠ hdr.length then (out4, errs4 ||| EVT_DECODE_LENGTH_MISMATCH)
    else (out4, errs4)

/-- `evtDecodeRecordData` from evt.c, returning the decoded contents and
the decode-error bit set; the C returns `EVT_ERROR` exactly when the bit
set is nonzero.  The bounds guards and index arithmetic reproduce the C
expressions including unsigned wrap-around; the body is the composition of
the function's five blocks. -/
def evtDecodeRecordData (input : EvtRecordData) : EvtDecodedContents × Nat :=
  if input.data = none ∨ input.dataLength < 8 then
    (zeroDecodedContents, EVT_DECODE_INVALID)
  else
    let d := input.data.getD []
    let hdr := input.header
    let dl := input.dataLength
    evtDecodeTrailerStage d dl hdr (evtDecodeDataStage d dl hdr
      (evtDecodeSidStage d dl hdr (evtDecodeStringsStage d dl hdr
        (evtDecodeNames d dl hdr))))

/-- The byte offsets into `input->data` that the source-name terminator
scan of `evtDecodeRecordData` reads (its first `decodeWideString` call). -/
def evtDecodeSourceScanAccesses (input : EvtRecordData) : List Nat :=
  scanAccesses (fun i => (input.data.getD []).getD i 0) (asInt32 input.dataLength)

/-- `return errs ? EVT_ERROR : EVT_OK` at the end of `evtDecodeRecordData`
(the short-input path also returns `EVT_ERROR`, with `errs` set to
`EVT_DECODE_INVALID`). -/
inductive EvtErr
  | ok
  | genErr
  | ioErr
  | eofErr
  | logFull
deriving DecidableEq

/-- The `EvtError` code `evtDecodeRecordData` returns. -/
def evtDecodeRecordResult (input : EvtRecordData) : EvtErr :=
  if (evtDecodeRecordData input).2 ≠ 0 then .genErr else .ok

/-- Concrete encoder input for the C5 witness: one string, no SID. -/
def evtC5Input : EvtRecordContents := ⟨5, 7, [[99]], none, [97], [98], []⟩

/-- The payload `evtEncodeRecordPayload` produces for `evtC5Input`. -/
def evtC5Payload : List Nat := [97, 0, 0, 0, 98, 0, 0, 0, 99, 0, 0, 0]

/-- The header `evtEncodeRecordPayload` produces for `evtC5Input`. -/
def evtC5Hdr : EvtRecordHeader := ⟨0, 0, 0, 5, 7, 0, 0, 1, 0, 0, 0, 64, 0, 0, 0, 68⟩

/-- The record `evtEncodeRecordData` produces for `evtC5Input`. -/
def evtC5Record : EvtRecordData :=
  ⟨⟨72, 0, 0, 5, 7, 0, 0, 1, 0, 0, 0, 64, 0, 0, 0, 68⟩, 16,
    some [97, 0, 0, 0, 98, 0, 0, 0, 99, 0, 0, 0, 72, 0, 0, 0]⟩

/-- The decoded contents `evtDecodeRecordData` produces for `evtC5Record`
(the C6 witness). -/
def evtC6Out : EvtDecodedContents := ⟨5, 7, 1, [[99]], none, some [97], some [98], 0, some []⟩

/-- The record contents of the failing input for claim C1: plain one-byte
source and computer names, no SID, no strings, and 48 bytes of data, so
that the encoded payload is 60 bytes long. -/
def evtC1Input : EvtRecordContents := ⟨0, 0, [], none, [97], [98], List.replicate 48 0⟩

/-- The failing input for claim C10: a record whose payload is 8 bytes of
`0x01`, i.e. four nonzero UTF-16 code units and no terminator. -/
def evtC10Input : EvtRecordData := ⟨zeroRecordHeader, 8, some (List.replicate 8 1)⟩

/-! ### Log engine (src/src/evt.c, high-level interface)

The C operates on a `FILE` through `FileIO`; the model is the file's bytes
plus the stream position.  I/O never fails on writes (`fwrite` fails only
on hardware errors, which have no model); reads fail exactly on a short
read at end of file.  A table-driven `evtRead`/`evtWrite` reads or writes
the fields in table order at the current position, which equals reading or
writing the concatenated little-endian bytes.  `assert`s are compiled out
(`NDEBUG` semantics).  Uninitialized memory (`firstRecordLen` before the
first record is known) is modelled as 0; every use in the C is guarded by
`firstRecordRead` or a preceding assignment. -/

def EVT_SIGNATURE : Nat := 0x654c664c
def EVT_HEADER_LENGTH : Nat := 48
def EVT_RECORD_HEADER_LENGTH : Nat := 56
def EVT_RECORD_MIN_LENGTH : Nat := 64
def EVT_EOF_LENGTH : Nat := 40
def EVT_HEADER_DIRTY : Nat := 1
def EVT_HEADER_WRAP : Nat := 2
def EVT_HEADER_LOGFULL_WRITTEN : Nat := 4

/-- `EvtHeader` (evt.h): twelve 32-bit fields, 48 bytes on disk. -/
structure EvtHeaderS where
  headerSize : Nat
  signature : Nat
  majorVersion : Nat
  minorVersion : Nat
  startOffset : Nat
  endOffset : Nat
  currentRecordNumber : Nat
  oldestRecordNumber : Nat
  maxSize : Nat
  flags : Nat
  retention : Nat
  endHeaderSize : Nat
deriving DecidableEq

/-- A C `FILE`: bytes and stream position. -/
structure FileS where
  bytes : List Nat
  pos : Nat
deriving DecidableEq

/-- `fwrite` at the current position, extending the file (with a zero gap
after a seek past the end) as the OS does. -/
def fileWrite (f : FileS) (data : List Nat) : FileS :=
  { bytes := (f.bytes.take f.pos ++ List.replicate (f.pos - f.bytes.length) 0
      ++ data) ++ f.bytes.drop (f.pos + data.length)
    pos := f.pos + data.length }

/-- `fread` of `n` bytes; fails (short read) past the end of the file. -/
def fileRead (f : FileS) (n : Nat) : Option (List Nat × FileS) :=
  if f.pos + n ≤ f.bytes.length then
    some ((f.bytes.drop f.pos).take n, { f with pos := f.pos + n })
  else none

/-- `ftruncate`; does not move the position. -/
def fileTruncate (f : FileS) (size : Nat) : FileS :=
  { bytes := f.bytes.take size ++ List.replicate (size - f.bytes.length) 0
    pos := f.pos }

/-- `EvtLog` (evt.h): the parsed header, the handle flags, the first-record
cache, the file length remembered at open time and the file itself. -/
structure EvtLogS where
  header : EvtHeaderS
  changed : Bool
  firstRecordRead : Bool
  firstRecordLen : Nat
  length : Nat
  io : FileS
deriving DecidableEq

/-- `evtWrite` with `evtHeaderTable`: the header fields in table order. -/
def headerBytes (h : EvtHeaderS) : List Nat :=
  le32 h.headerSize ++ le32 h.signature ++ le32 h.majorVersion ++
  le32 h.minorVersion ++ le32 h.startOffset ++ le32 h.endOffset ++
  le32 h.currentRecordNumber ++ le32 h.oldestRecordNumber ++ le32 h.maxSize ++
  le32 h.flags ++ le32 h.retention ++ le32 h.endHeaderSize

/-- `evtRead` with `evtHeaderTable`: parse the 48 header bytes. -/
def parseHeader (b : List Nat) : EvtHeaderS :=
  ⟨rd32 b 0, rd32 b 4, rd32 b 8, rd32 b 12, rd32 b 16, rd32 b 20,
   rd32 b 24, rd32 b 28, rd32 b 32, rd32 b 36, rd32 b 40, rd32 b 44⟩

/-- `evtWrite` with `evtRecordTable`: the record-header fields in table
order (twelve dwords, four words; 56 bytes). -/
def recordHeaderBytes (h : EvtRecordHeader) : List Nat :=
  le32 h.length ++ le32 h.reserved ++ le32 h.recordNumber ++
  le32 h.timeGenerated ++ le32 h.timeWritten ++ le32 h.eventID ++
  le16 h.eventType ++ le16 h.numStrings ++ le16 h.eventCategory ++
  le16 h.reservedFlags ++ le32 h.closingRecordNumber ++ le32 h.stringOffset ++
  le32 h.userSidLength ++ le32 h.userSidOffset ++ le32 h.dataLength ++
  le32 h.dataOffset

/-- `evtRead` with `evtRecordTable`: parse the 56 record-header bytes. -/
def parseRecordHeader (b : List Nat) : EvtRecordHeader :=
  ⟨rd32 b 0, rd32 b 4, rd32 b 8, rd32 b 12, rd32 b 16, rd32 b 20,
   rd16 b 24, rd16 b 26, rd16 b 28, rd16 b 30, rd32 b 32, rd32 b 36,
   rd32 b 40, rd32 b 44, rd32 b 48, rd32 b 52⟩

/-- `EvtEOF` (evt.h): the 40-byte EOF sentinel. -/
structure EvtEOFS where
  recordSizeBeginning : Nat
  one : Nat
  two : Nat
  three : Nat
  four : Nat
  beginRecord : Nat
  endRecord : Nat
  currentRecordNumber : Nat
  oldestRecordNumber : Nat
  recordSizeEnd : Nat
deriving DecidableEq

/-- `evtWrite` with `evtEOFTable`: the EOF fields in table order. -/
def eofBytes (e : EvtEOFS) : List Nat :=
  le32 e.recordSizeBeginning ++ le32 e.one ++ le32 e.two ++ le32 e.three ++
  le32 e.four ++ le32 e.beginRecord ++ le32 e.endRecord ++
  le32 e.currentRecordNumber ++ le32 e.oldestRecordNumber ++
  le32 e.recordSizeEnd

/-- `EvtReposition` (evt.c). -/
inductive EvtRepositionW
  | header
  | pastHeader
  | first
  | eofPos
deriving DecidableEq

/-- The file offset `evtReposition` seeks to. -/
def evtRepositionOffset (log : EvtLogS) : EvtRepositionW → Nat
  | .header => 0
  | .pastHeader => EVT_HEADER_LENGTH
  | .first => log.header.startOffset
  | .eofPos => log.header.endOffset

/-- `evtReposition`: a seek, which never fails in the model. -/
def evtReposition (log : EvtLogS) (w : EvtRepositionW) : EvtLogS :=
  { log with io := { log.io with pos := evtRepositionOffset log w } }

/-- `evtInitializeHeader`. -/
def evtInitializeHeader (size : Nat) : EvtHeaderS :=
  ⟨EVT_HEADER_LENGTH, EVT_SIGNATURE, 1, 1, EVT_HEADER_LENGTH,
   EVT_HEADER_LENGTH, 1, 0, size, 0, 0, EVT_HEADER_LENGTH⟩

/-- `evtWriteHeader`: seek to 0 and write the 48 header bytes. -/
def evtWriteHeader (log : EvtLogS) : EvtLogS :=
  let l1 := evtReposition log .header
  { l1 with io := fileWrite l1.io (headerBytes l1.header) }

/-- `evtOpenCreate`: truncate to `size`, install a fresh dirty header,
write it out and seek past it.  `none` is `EVT_ERROR` for a size below the
header length. -/
def evtOpenCreate (io : FileS) (size : Nat) : Option EvtLogS :=
  if size < EVT_HEADER_LENGTH then none
  else
    let log : EvtLogS := {
      header := { evtInitializeHeader size with flags := EVT_HEADER_DIRTY }
      changed := true
      firstRecordRead := false
      firstRecordLen := 0
      length := size
      io := fileTruncate io size }
    some (evtReposition (evtWriteHeader log) .pastHeader)

/-- `evtOpen` at stream position 0: check the length, read and validate the
header, seek to the first record.  `none` covers both error returns. -/
def evtOpen (io : FileS) : Option EvtLogS :=
  if io.bytes.length < EVT_HEADER_LENGTH then none
  else
    match fileRead { io with pos := 0 } EVT_HEADER_LENGTH with
    | none => none
    | some (b, io1) =>
      let hdr := parseHeader b
      if hdr.headerSize ≠ EVT_HEADER_LENGTH ∨ hdr.endHeaderSize ≠ EVT_HEADER_LENGTH
          ∨ hdr.signature ≠ EVT_SIGNATURE
          ∨ hdr.majorVersion ≠ 1 ∨ hdr.minorVersion ≠ 1 then none
      else
        some (evtReposition
          { header := hdr, changed := false, firstRecordRead := false,
            firstRecordLen := 0, length := io.bytes.length, io := io1 } .first)

/-- The first-record length `evtDeleteFirst` works with: the cache when
`firstRecordRead` is set, otherwise the header read from `startOffset`
(`none` on a failed read). -/
def evtReadFirstLen (log : EvtLogS) : Option (Nat × EvtLogS) :=
  if log.firstRecordRead then some (log.firstRecordLen, log)
  else
    let l1 := evtReposition log .first
    match fileRead l1.io EVT_RECORD_HEADER_LENGTH with
    | none => none
    | some (b, io2) =>
      some ((parseRecordHeader b).length,
        { l1 with io := io2, firstRecordLen := (parseRecordHeader b).length })

/-- `evtDeleteFirst` (evt.c).  The first component is the `EvtError`; the
state reflects any changes made before a failure return.  `int64_t
endSpace` is an `Int`; the `uint32_t` stores reduce modulo `2^32`. -/
def evtDeleteFirst (log : EvtLogS) : EvtErr × EvtLogS :=
  if log.header.oldestRecordNumber = 0 then (.genErr, log)
  else
    match evtReadFirstLen log with
    | none => (.ioErr, evtReposition log .first)
    | some (firstLen, l2) =>
      let endSpace : Int := (log.length : Int) - l2.header.startOffset - firstLen
      let newStart : Nat :=
        if endSpace < 0 then uint32Of ((EVT_HEADER_LENGTH : Int) - endSpace)
        else if endSpace < (EVT_RECORD_HEADER_LENGTH : Int) then EVT_HEADER_LENGTH
        else (l2.header.startOffset + firstLen) % 2 ^ 32
      let l3 := { l2 with header.startOffset := newStart }
      if l3.header.startOffset = l3.header.endOffset then
        (.ok, { l3 with header.oldestRecordNumber := 0, firstRecordRead := false })
      else
        let l4 := evtReposition l3 .first
        match fileRead l4.io EVT_RECORD_HEADER_LENGTH with
        | none => (.ioErr, l4)
        | some (b, io5) =>
          (.ok, { l4 with
            io := io5
            header.oldestRecordNumber := (parseRecordHeader b).recordNumber
            firstRecordLen := (parseRecordHeader b).length
            firstRecordRead := true })

/-- The free-space computation of `evtPrepareWrite`'s loop.  `space` is a
`uint32_t`; in the second branch the C subtracts in `uint32_t`, adds the
`off_t` difference in `int64_t` and converts back. -/
def evtPrepareSpace (log : EvtLogS) : Nat :=
  if log.header.startOffset > log.header.endOffset then
    log.header.startOffset - log.header.endOffset
  else
    uint32Of (((log.header.startOffset + 2 ^ 32 - EVT_HEADER_LENGTH) % 2 ^ 32 : Nat)
      + ((log.length : Int) - log.header.endOffset))

/-- The eviction loop of `evtPrepareWrite`: delete first records until
`space ≥ size`.  Structural fuel; `none` means the fuel ran out. -/
def evtPrepareLoop : Nat → EvtLogS → Nat → Option (EvtErr × EvtLogS)
  | 0, _, _ => none
  | fuel + 1, log, size =>
    if evtPrepareSpace log ≥ size then some (.ok, log)
    else
      match evtDeleteFirst log with
      | (.ok, l2) => evtPrepareLoop fuel l2 size
      | (e, l2) => some (e, l2)

/-- The filler pattern bytes `27 00 00 00`, repeated from a write's first
byte. -/
def fillerBytes (n : Nat) : List Nat :=
  (List.range n).map (fun i => [0x27, 0, 0, 0].getD (i % 4) 0)

/-- `evtPrepareWrite` (evt.c): enlarge `size` when the EOF does not fit
before the end, evict until there is room, then collapse an empty log or
wrap, and seek to the write position. -/
def evtPrepareWrite (fuel : Nat) (log : EvtLogS) (size0 : Nat) :
    Option (EvtErr × EvtLogS) :=
  let size := if (log.header.endOffset : Int) ≥
      (log.length : Int) - EVT_RECORD_HEADER_LENGTH then
    uint32Of (size0 + ((log.length : Int) - log.header.endOffset))
  else size0
  match evtPrepareLoop fuel log size with
  | none => none
  | some (e, l1) =>
    if e ≠ .ok then some (e, l1)
    else if l1.header.oldestRecordNumber = 0 then
      let l2 := { l1 with
        header.startOffset := EVT_HEADER_LENGTH
        header.endOffset := EVT_HEADER_LENGTH
        header.flags := l1.header.flags &&& (2 ^ 32 - 1 - EVT_HEADER_WRAP) }
      some (.ok, evtReposition l2 .eofPos)
    else if (l1.header.endOffset : Int) ≥
        (l1.length : Int) - EVT_RECORD_HEADER_LENGTH then
      let endSpace : Int := (l1.length : Int) - l1.io.pos
      let l2 := { l1 with io := fileWrite l1.io (fillerBytes endSpace.toNat) }
      let l3 := { l2 with
        header.endOffset := EVT_HEADER_LENGTH
        header.flags := l2.header.flags ||| EVT_HEADER_WRAP }
      some (.ok, evtReposition l3 .eofPos)
    else some (.ok, evtReposition l1 .eofPos)

/-- `evtSimulateWrite` (evt.c), transcribed verbatim (including the
condition of the second block, which the comment says should cover the
case where the write does not fit before the end of the file).  `none` is
`EVT_ERROR`; `some` carries the updated `*endOffset`. -/
def evtSimulateWrite (startOffset endOffset : Nat) (length : Nat) (size : Nat) :
    Option Nat :=
  match (if (endOffset : Int) ≥ (length : Int) - EVT_RECORD_HEADER_LENGTH then
      (if startOffset > endOffset then none else some EVT_HEADER_LENGTH)
    else some endOffset : Option Nat) with
  | none => none
  | some e1 =>
    if startOffset > e1 then
      if startOffset - e1 < size then none
      else some ((e1 + size) % 2 ^ 32)
    else if (length : Int) - e1 ≥ (size : Int) then
      let size2 := uint32Of (size - ((length : Int) - e1))
      if (startOffset + 2 ^ 32 - EVT_HEADER_LENGTH) % 2 ^ 32 < size2 then none
      else some ((EVT_HEADER_LENGTH + size2) % 2 ^ 32)
    else some ((e1 + size) % 2 ^ 32)

/-- Bytes of a C buffer of `n` bytes whose initialized prefix is `data`
(reads past the list are undefined in C and modelled as 0). -/
def cBytes (data : List Nat) (n : Nat) : List Nat :=
  data.take n ++ List.replicate (n - data.length) 0

/-- The write phase of `evtAppendRecord` (evt.c), entered after
`evtPrepareWrite` succeeds; the writes themselves cannot fail.  The
empty-log test reads `oldestRecordNumber` from the prepared state `l1`:
the intervening writes touch only `io`. -/
def evtAppendFinish (l1 : EvtLogS) (record : EvtRecordData) : EvtLogS :=
  let recordOffset : Nat := l1.io.pos
  let l2 := { l1 with io := fileWrite l1.io (recordHeaderBytes record.header) }
  let endSpace : Int := (l2.length : Int) - l2.io.pos
  let data := cBytes (record.data.getD []) record.dataLength
  let l3 :=
    if endSpace ≥ (record.dataLength : Int) then
      { l2 with io := fileWrite l2.io data }
    else
      let l2a := { l2 with io := fileWrite l2.io (data.take endSpace.toNat) }
      let l2b := evtReposition l2a .pastHeader
      { l2b with io := fileWrite l2b.io (data.drop endSpace.toNat) }
  let l4 :=
    if l1.header.oldestRecordNumber = 0 then
      { l3 with
        header.oldestRecordNumber := record.header.recordNumber
        header.startOffset := recordOffset % 2 ^ 32
        firstRecordRead := true
        firstRecordLen := record.header.length }
    else l3
  { l4 with
    header.currentRecordNumber := (record.header.recordNumber + 1) % 2 ^ 32
    header.endOffset := l4.io.pos % 2 ^ 32
    changed := true }

/-- `evtAppendRecord` (evt.c).  `none` means the eviction fuel ran out. -/
def evtAppendRecord (fuel : Nat) (log : EvtLogS) (record : EvtRecordData)
    (overwrite : Bool) : Option (EvtErr × EvtLogS) :=
  let l0 := { log with
    header.flags := log.header.flags &&& (2 ^ 32 - 1 - EVT_HEADER_LOGFULL_WRITTEN) }
  let size := (EVT_RECORD_HEADER_LENGTH + record.dataLength) % 2 ^ 32
  match (if overwrite then some () else
    match evtSimulateWrite l0.header.startOffset l0.header.endOffset l0.length size with
    | none => none
    | some e1 =>
      match evtSimulateWrite l0.header.startOffset e1 l0.length EVT_EOF_LENGTH with
      | none => none
      | some _ => some () : Option Unit) with
  | none =>
    some (.logFull,
      { l0 with header.flags := l0.header.flags ||| EVT_HEADER_LOGFULL_WRITTEN })
  | some _ =>
    match evtPrepareWrite fuel l0 size with
    | none => none
    | some (e, l1) =>
      if e ≠ .ok then some (e, l1)
      else some (.ok, evtAppendFinish l1 record)

/-- `evtWriteEOF` (evt.c): make room for the sentinel, repair an emptied
log, and write the sentinel built from the header. -/
def evtWriteEOF (fuel : Nat) (log : EvtLogS) : Option (EvtErr × EvtLogS) :=
  match evtPrepareWrite fuel log EVT_EOF_LENGTH with
  | none => none
  | some (e, l1) =>
    if e ≠ .ok then some (e, l1)
    else
      let l2 := if l1.header.oldestRecordNumber = 0 then
          { l1 with header.startOffset := l1.header.endOffset }
        else l1
      let eof : EvtEOFS :=
        ⟨EVT_EOF_LENGTH, 0x11111111, 0x22222222, 0x33333333, 0x44444444,
         l2.header.startOffset, l2.header.endOffset,
         l2.header.currentRecordNumber, l2.header.oldestRecordNumber,
         EVT_EOF_LENGTH⟩
      some (.ok, { l2 with io := fileWrite l2.io (eofBytes eof) })

/-- `evtClose` (evt.c): write the EOF sentinel and the cleaned header when
the log changed; otherwise nothing. -/
def evtClose (fuel : Nat) (log : EvtLogS) : Option (EvtErr × EvtLogS) :=
  if log.changed then
    match evtWriteEOF fuel log with
    | none => none
    | some (e, l1) =>
      if e ≠ .ok then some (e, l1)
      else
        let l2 := { l1 with
          header.flags := l1.header.flags &&& (2 ^ 32 - 1 - EVT_HEADER_DIRTY) }
        some (.ok, evtWriteHeader l2)
  else some (.ok, log)

/-- `evtReadRecord` (evt.c).  `prev` holds the caller-supplied
`record->header` buffer, whose `stringOffset` bytes the EOF check reads
back as `recordSizeEnd` through the `EvtEOF` cast without having read that
field from the file. -/
def evtReadRecordFrom (l1 : EvtLogS) (prev : EvtRecordHeader) :
    EvtErr × EvtLogS :=
  let offset := l1.io.pos
  if offset = l1.header.endOffset then (.eofErr, l1)
  else
    let isFirst := offset = l1.header.startOffset
    match fileRead l1.io 4 with
    | none => (.ioErr, l1)
    | some (b, io2) =>
      let len := rd32 b 0
      let l2 := { l1 with io := io2 }
      if len = EVT_EOF_LENGTH then
        match fileRead l2.io 16 with
        | none => (.ioErr, l2)
        | some (b2, io3) =>
          let l3 := { l2 with io := io3 }
          if rd32 b2 0 = 0x11111111 ∧ rd32 b2 4 = 0x22222222 ∧
              rd32 b2 8 = 0x33333333 ∧ rd32 b2 12 = 0x44444444 ∧
              prev.stringOffset = EVT_EOF_LENGTH then
            (.eofErr, l3)
          else (.genErr, l3)
      else if len < EVT_RECORD_MIN_LENGTH then (.genErr, l2)
      else if (len : Int) > (l2.length : Int) - EVT_HEADER_LENGTH then (.genErr, l2)
      else
        match fileRead l2.io 52 with
        | none => (.ioErr, l2)
        | some (_, io4) =>
          let l4 := { l2 with io := io4 }
          let offset2 : Nat := l4.io.pos
          let dataLength : Nat := len - EVT_RECORD_HEADER_LENGTH
          if ((offset2 : Int) + (dataLength : Int) > (l4.length : Int)) then
            if l4.header.flags &&& EVT_HEADER_WRAP ≠ 0 then
              match fileRead l4.io (l4.length - offset2) with
              | none => (.ioErr, l4)
              | some (_, io5) =>
                let l5 := evtReposition { l4 with io := io5 } .pastHeader
                match fileRead l5.io (dataLength - (l4.length - offset2)) with
                | none => (.ioErr, l5)
                | some (_, io6) =>
                  let l6 := { l5 with io := io6 }
                  (.ok, if isFirst then
                    { l6 with firstRecordRead := true, firstRecordLen := len }
                  else l6)
            else (.genErr, l4)
          else
            match fileRead l4.io dataLength with
            | none => (.ioErr, l4)
            | some (_, io5) =>
              let l5 := { l4 with io := io5 }
              (.ok, if isFirst then
                { l5 with firstRecordRead := true, firstRecordLen := len }
              else l5)

/-- `evtReadRecord` (evt.c): re-seek past the header when fewer than 56
bytes remain before EOF, then read at the current position. -/
def evtReadRecord (log : EvtLogS) (prev : EvtRecordHeader) : EvtErr × EvtLogS :=
  evtReadRecordFrom
    (if (log.length : Int) - log.io.pos < EVT_RECORD_HEADER_LENGTH then
      evtReposition log .pastHeader
    else log) prev

/-- The record appended in the C2 trace: the minimum legal record, 8 data
bytes under a 64-byte total length. -/
def evtC2Record : EvtRecordData :=
  ⟨{ zeroRecordHeader with length := 64, recordNumber := 1, dataLength := 8 },
   8, some (List.replicate 8 0)⟩

/-- Claim C4\'s advancement rule for `startOffset`, written from the
claim\'s words (ideal integer arithmetic) to compare with the code. -/
def c4ClaimedStart (log : EvtLogS) : Nat :=
  if log.length < log.header.startOffset + log.firstRecordLen then
    EVT_HEADER_LENGTH + (log.header.startOffset + log.firstRecordLen - log.length)
  else if log.length - (log.header.startOffset + log.firstRecordLen) <
      EVT_RECORD_HEADER_LENGTH then
    EVT_HEADER_LENGTH
  else log.header.startOffset + log.firstRecordLen

/-- A concrete log for the C4 witness: two 80-byte records at offsets 48
and 128 in a 288-byte log, the first one cached, end of data at 208. -/
def evtC4Log : EvtLogS :=
  { header := ⟨48, EVT_SIGNATURE, 1, 1, 48, 208, 3, 1, 288, 1, 0, 48⟩
    changed := true
    firstRecordRead := true
    firstRecordLen := 80
    length := 288
    io := ⟨List.replicate 128 0 ++
      recordHeaderBytes { zeroRecordHeader with
        length := 80, recordNumber := 2, dataLength := 24 } ++
      List.replicate 104 0, 0⟩ }

/-- A log file whose stored header carries the DIRTY flag: the C8
counterexample input. -/
def evtC8File : FileS :=
  ⟨headerBytes ⟨48, EVT_SIGNATURE, 1, 1, 48, 48, 1, 0, 88, EVT_HEADER_DIRTY, 0, 48⟩
    ++ List.replicate 40 0, 0⟩

/-- A freshly created 200-byte log (as `evtOpenCreate` leaves it) for the
C8 witness, and the state its `evtClose` produces. -/
def evtC8Log : EvtLogS :=
  ⟨⟨48, EVT_SIGNATURE, 1, 1, 48, 48, 1, 0, 200, 1, 0, 48⟩, true, false, 0, 200,
   ⟨List.replicate 200 0, 48⟩⟩

def evtC8Closed : EvtLogS := ((evtClose 2 evtC8Log).getD (.ok, evtC8Log)).2

/-- An 80-byte record (24 data bytes) for the C3 trace. -/
def c3Rec (n : Nat) : EvtRecordData :=
  ⟨{ zeroRecordHeader with length := 80, recordNumber := n, dataLength := 24 },
   24, some (List.replicate 24 5)⟩

/-- One successful append in the C3 trace (`none` when the append fails). -/
def c3Step (log : Option EvtLogS) (n : Nat) : Option EvtLogS :=
  log.bind (fun l =>
    match evtAppendRecord 8 l (c3Rec n) true with
    | some (.ok, l2) => some l2
    | _ => none)

/-- The C3 trace: a 288-byte log after three 80-byte appends. -/
def c3S3 : Option EvtLogS :=
  c3Step (c3Step (c3Step (evtOpenCreate ⟨[], 0⟩ 288) 1) 2) 3

/-- The C3 trace after the fourth, wrapping append. -/
def c3S4 : Option EvtLogS := c3Step c3S3 4

set_option maxHeartbeats 4000000 in
/-- Claim C1 is the round-trip law `decode (encode c) = c` (up to 32-bit
timestamp quantization); the code breaks it.  For `evtC1Input` the encode
succeeds with no error bit, yet decoding the encoded record raises
`EVT_DECODE_DATA_OVERFLOW` and returns `EVT_ERROR` with the data field
nulled: the guard at evt.c:1558 compares the header-relative
`dataOffset + dataLength` against `input->dataLength − 56 − 4` although
`dataOffset` already includes the 56-byte header, rejecting every record
whose payload is 60 bytes or longer — the repo's own testevt.c round-trip
test fails on this code. -/
theorem C1_roundtrip_code_bug :
    (evtEncodeRecordData evtC1Input zeroRecordHeader).2 = 0 ∧
    (evtEncodeRecordData evtC1Input zeroRecordHeader).1.map
        (fun r => (evtDecodeRecordData r).2) = some EVT_DECODE_DATA_OVERFLOW ∧
    (evtEncodeRecordData evtC1Input zeroRecordHeader).1.map
        (fun r => evtDecodeRecordResult r) = some EvtErr.genErr ∧
    (evtEncodeRecordData evtC1Input zeroRecordHeader).1.map
        (fun r => (evtDecodeRecordData r).1.data) = some none := by
  refine ⟨by decide, by decide, by decide, by decide⟩

/-- Claim C10 says the decoder reads only bytes inside
`input->data[0 .. dataLength)`; the code breaks it.  For `evtC10Input`
(which satisfies the decoder's precondition: data non-NULL,
`dataLength = 8 ≥ 8`) the source-name terminator scan reads the bytes at
offsets 8 and 9, outside the 8-byte payload: the bound check in
widechar.c runs only after the unit has been read and uses `>` instead of
`>=`. -/
theorem C10_scan_reads_out_of_bounds :
    evtC10Input.data ≠ none ∧ 8 ≤ evtC10Input.dataLength ∧
    8 ∈ evtDecodeSourceScanAccesses evtC10Input ∧
    9 ∈ evtDecodeSourceScanAccesses evtC10Input ∧
    ¬ 8 < evtC10Input.dataLength ∧ ¬ 9 < evtC10Input.dataLength := by
  refine ⟨by decide, by decide, by decide, by decide, by decide, by decide⟩

theorem utf16BytesLE_len (us : List Nat) : (utf16BytesLE us).length = 2 * us.length := by
  induction us with
  | nil => rfl
  | cons u t ih =>
    simp only [utf16BytesLE, List.flatMap_cons] at *
    simp [ih]
    omega

theorem encodeMBString_min_len {s w : List Nat} (h : encodeMBString s = some w) :
    2 ≤ w.length := by
  unfold encodeMBString at h
  by_cases ha : s.all validScalar
  · simp only [ha, if_true, Option.some.injEq] at h
    subst h
    rw [utf16BytesLE_len]
    simp
  · simp [ha] at h

theorem bufferAppend_len (b w : List Nat) (a : Nat) :
    (bufferAppend b w a).1.length = b.length + bufPad b.length a + w.length := by
  simp [bufferAppend]
  omega

theorem bufPad_align_zero (l : Nat) : bufPad l 0 = 0 := rfl

theorem lorEqZeroLeft {a b : Nat} (h : a ||| b = 0) : a = 0 := by
  by_contra hne
  obtain ⟨i, hi⟩ := Nat.exists_most_significant_bit hne
  have h2 : (a ||| b).testBit i = true := by
    rw [Nat.testBit_lor, hi.1]
    simp
  rw [h] at h2
  simp [Nat.zero_testBit] at h2

theorem lorEqZeroRight {a b : Nat} (h : a ||| b = 0) : b = 0 := by
  rw [Nat.lor_comm] at h
  exact lorEqZeroLeft h

/-- The message-strings fold of the encoder only appends to the buffer and
only adds error bits; a zero final error set means a zero initial one. -/
theorem encodeStringsFold_mono (l : List (List Nat)) :
    ∀ p : List Nat × Nat,
      p.1.length ≤ (l.foldl encStringsStep p).1.length ∧
      ((l.foldl encStringsStep p).2 = 0 → p.2 = 0) := by
  induction l with
  | nil => intro p; exact ⟨le_rfl, fun h => h⟩
  | cons s t ih =>
    intro p
    rcases p with ⟨buf, errs⟩
    simp only [List.foldl_cons]
    cases hm : encodeMBString s with
    | some w =>
      simp only [encStringsStep, hm]
      have := ih ((bufferAppend buf w 0).1, errs)
      refine ⟨le_trans ?_ this.1, this.2⟩
      rw [bufferAppend_len]
      omega
    | none =>
      simp only [encStringsStep, hm]
      have := ih (buf, errs ||| EVT_ENCODE_STRINGS_FAILED)
      exact ⟨this.1, fun h => lorEqZeroLeft (this.2 h)⟩

/-- The strings fold only raises error bits: a zero final error set means
the seed's error set was zero. -/
theorem encodeStringsFold_errs {l : List (List Nat)} {p : List Nat × Nat}
    (h : (l.foldl encStringsStep p).2 = 0) : p.2 = 0 :=
  (encodeStringsFold_mono l p).2 h

/-- On success the encoder's payload holds at least the four bytes of the
two NUL-terminated names. -/
theorem evtEncodeRecordPayload_min_len (input : EvtRecordContents)
    (hdr0 : EvtRecordHeader) (p : List Nat) (h4 : EvtRecordHeader)
    (h : (evtEncodeRecordPayload input hdr0).1 = some (p, h4)) : 4 ≤ p.length := by
  unfold evtEncodeRecordPayload at h
  rcases hsrc : encodeMBString input.sourceName with _ | w1 <;> rw [hsrc] at h <;>
    rcases hcomp : encodeMBString input.computerName with _ | w2 <;> rw [hcomp] at h <;>
      rcases husid : input.userSid with _ | txt <;> rw [husid] at h <;>
        try dsimp only [] at h
  all_goals
    try (rcases hsid : sidToBinary txt with _ | sid <;> rw [hsid] at h <;>
      try dsimp only [] at h)
  all_goals split at h
  all_goals try dsimp only [] at h
  all_goals try simp only [Option.some.injEq, Prod.mk.injEq, reduceCtorEq] at h
  all_goals rename_i hcond
  all_goals rw [not_ne_iff] at hcond
  all_goals try
    (have hx := encodeStringsFold_errs hcond
     dsimp only [] at hx
     exact absurd hx (of_decide_eq_false rfl))
  · obtain ⟨hp, -⟩ := h
    subst hp
    have h1 := encodeMBString_min_len hsrc
    have h2 := encodeMBString_min_len hcomp
    have hlen := (encodeStringsFold_mono input.strings
        ((bufferAppend (bufferAppend [] w1 0).1 w2 0).1, 0)).1
    simp only [bufferAppend_len, bufPad_align_zero, List.length_nil] at hlen ⊢
    omega
  · obtain ⟨hp, -⟩ := h
    subst hp
    have h1 := encodeMBString_min_len hsrc
    have h2 := encodeMBString_min_len hcomp
    have hlen := (encodeStringsFold_mono input.strings
        ((bufferAppend (bufferAppend (bufferAppend [] w1 0).1 w2 0).1 sid 4).1, 0)).1
    simp only [bufferAppend_len, bufPad_align_zero, List.length_nil] at hlen ⊢
    omega


theorem le32_length (n : Nat) : (le32 n).length = 4 := rfl

theorem bufPad_four (l : Nat) : bufPad l 4 = (4 - l % 4) % 4 := if_neg (by decide)

set_option maxHeartbeats 1000000 in
/-- C5: after every successful `evtEncodeRecordData`, the stored
`header.length` equals the DWORD-aligned total `⌈(56 + payload + 4)/4⌉·4`,
which also equals `56 + dataLength`; the length is a multiple of four and
at least 64, and the last four bytes of the encoded buffer hold the same
length in little endian. -/
theorem C5_encode_length (input : EvtRecordContents) (hdr0 : EvtRecordHeader)
    (p : List Nat) (h4 : EvtRecordHeader) (e : Nat) (r : EvtRecordData)
    (hp : evtEncodeRecordPayload input hdr0 = (some (p, h4), e))
    (hr : (evtEncodeRecordData input hdr0).1 = some r)
    (hfit : 56 + p.length + 8 ≤ 2 ^ 32) :
    r.header.length = (56 + p.length + 4 + 3) / 4 * 4 ∧
    r.header.length = 56 + r.dataLength ∧
    r.header.length % 4 = 0 ∧
    64 ≤ r.header.length ∧
    (r.data.getD []).drop (r.dataLength - 4) = le32 r.header.length := by
  have hmin : 4 ≤ p.length :=
    evtEncodeRecordPayload_min_len input hdr0 p h4 (by rw [hp])
  unfold evtEncodeRecordData at hr
  rw [hp] at hr
  dsimp only [] at hr
  simp only [Option.some.injEq] at hr
  subst hr
  dsimp only []
  refine ⟨?_, ?_, ?_, ?_, ?_⟩
  · omega
  · rw [bufferAppend_len, le32_length]
    simp only [bufPad_four]
    omega
  · omega
  · omega
  · rw [bufferAppend_len, le32_length]
    show ((p ++ List.replicate (bufPad p.length 4) 0) ++
      le32 ((56 + p.length + 4 + 4 - 1) / 4 * 4 % 2 ^ 32)).drop _ = _
    rw [show p.length + bufPad p.length 4 + 4 - 4 =
      (p ++ List.replicate (bufPad p.length 4) 0).length from by simp]
    rw [List.drop_left]

theorem C5_encode_length_witness :
    evtC5Record.header.length = (56 + evtC5Payload.length + 4 + 3) / 4 * 4 ∧
    evtC5Record.header.length = 56 + evtC5Record.dataLength ∧
    evtC5Record.header.length % 4 = 0 ∧
    64 ≤ evtC5Record.header.length ∧
    (evtC5Record.data.getD []).drop (evtC5Record.dataLength - 4) =
      le32 evtC5Record.header.length :=
  C5_encode_length evtC5Input zeroRecordHeader evtC5Payload evtC5Hdr 0 evtC5Record
    (by decide) (by decide) (by decide)

theorem landLorEqZeroLeft {a b m : Nat} (h : (a ||| b) &&& m = 0) : a &&& m = 0 := by
  apply Nat.eq_of_testBit_eq
  intro i
  have hi := congrArg (fun n => n.testBit i) h
  simp only [Nat.testBit_and, Nat.testBit_lor, Nat.zero_testBit] at hi ⊢
  cases ha : a.testBit i <;> cases hm : m.testBit i <;> simp_all

theorem landLorEqZeroRight {a b m : Nat} (h : (a ||| b) &&& m = 0) : b &&& m = 0 := by
  rw [Nat.lor_comm] at h
  exact landLorEqZeroLeft h

/-- The names block populates the timestamps, the source name when its bit
is clear and the computer name when both name bits are clear. -/
theorem evtDecodeNames_spec (d : List Nat) (dl : Nat) (hdr : EvtRecordHeader)
    (o : EvtDecodedContents) (e : Nat) (h : evtDecodeNames d dl hdr = (o, e)) :
    (e &&& EVT_DECODE_SOURCE_NAME_FAILED = 0 → o.sourceName.isSome = true) ∧
    (e &&& (EVT_DECODE_SOURCE_NAME_FAILED ||| EVT_DECODE_COMPUTER_NAME_FAILED) = 0 →
      o.computerName.isSome = true) ∧
    o.timeGenerated = hdr.timeGenerated ∧ o.timeWritten = hdr.timeWritten := by
  unfold evtDecodeNames at h
  dsimp only [] at h
  split at h
  · split at h
    · injection h with h1 h2
      subst h1; subst h2
      exact ⟨fun _ => rfl, fun _ => rfl, rfl, rfl⟩
    · injection h with h1 h2
      subst h1; subst h2
      exact ⟨fun _ => rfl, fun hb => absurd hb (by decide), rfl, rfl⟩
  · injection h with h1 h2
    subst h1; subst h2
    exact ⟨fun hb => absurd hb (by decide), fun hb => absurd hb (by decide), rfl, rfl⟩

/-- The strings block touches only `numStrings`/`strings` (leaving them
equal), and only adds error bits. -/
theorem evtDecodeStringsStage_spec (d : List Nat) (dl : Nat) (hdr : EvtRecordHeader)
    (o o' : EvtDecodedContents) (e e' : Nat)
    (h : evtDecodeStringsStage d dl hdr (o, e) = (o', e')) :
    o'.sourceName = o.sourceName ∧ o'.computerName = o.computerName ∧
    o'.userSid = o.userSid ∧ o'.data = o.data ∧
    o'.timeGenerated = o.timeGenerated ∧ o'.timeWritten = o.timeWritten ∧
    o'.numStrings = o'.strings.length ∧
    (∀ m, e' &&& m = 0 → e &&& m = 0) := by
  unfold evtDecodeStringsStage at h
  dsimp only [] at h
  split at h
  · split at h
    · injection h with h1 h2
      subst h1; subst h2
      exact ⟨rfl, rfl, rfl, rfl, rfl, rfl, rfl, fun m hm => landLorEqZeroLeft hm⟩
    · injection h with h1 h2
      subst h1; subst h2
      exact ⟨rfl, rfl, rfl, rfl, rfl, rfl, rfl, fun m hm => hm⟩
  · injection h with h1 h2
    subst h1; subst h2
    exact ⟨rfl, rfl, rfl, rfl, rfl, rfl, rfl, fun m hm => hm⟩

/-- The SID block touches only `userSid`, populating it when the SID bits
are clear and the header announces a SID, and only adds error bits. -/
theorem evtDecodeSidStage_spec (d : List Nat) (dl : Nat) (hdr : EvtRecordHeader)
    (o o' : EvtDecodedContents) (e e' : Nat)
    (h : evtDecodeSidStage d dl hdr (o, e) = (o', e')) :
    o'.sourceName = o.sourceName ∧ o'.computerName = o.computerName ∧
    o'.numStrings = o.numStrings ∧ o'.strings = o.strings ∧
    o'.data = o.data ∧
    o'.timeGenerated = o.timeGenerated ∧ o'.timeWritten = o.timeWritten ∧
    (e' &&& (EVT_DECODE_SID_OVERFLOW ||| EVT_DECODE_SID_FAILED) = 0 →
      hdr.userSidLength ≠ 0 → o'.userSid.isSome = true) ∧
    (∀ m, e' &&& m = 0 → e &&& m = 0) := by
  unfold evtDecodeSidStage at h
  dsimp only [] at h
  split at h
  · injection h with h1 h2
    subst h1; subst h2
    exact ⟨rfl, rfl, rfl, rfl, rfl, rfl, rfl,
      fun hb _ => absurd (landLorEqZeroRight hb) (by decide),
      fun m hm => landLorEqZeroLeft hm⟩
  · split at h
    · split at h
      · injection h with h1 h2
        subst h1; subst h2
        exact ⟨rfl, rfl, rfl, rfl, rfl, rfl, rfl, fun _ _ => rfl, fun m hm => hm⟩
      · injection h with h1 h2
        subst h1; subst h2
        exact ⟨rfl, rfl, rfl, rfl, rfl, rfl, rfl,
          fun hb _ => absurd (landLorEqZeroRight hb) (by decide),
          fun m hm => landLorEqZeroLeft hm⟩
    · injection h with h1 h2
      subst h1; subst h2
      refine ⟨rfl, rfl, rfl, rfl, rfl, rfl, rfl, ?_, fun m hm => hm⟩
      intro _ hlen
      exfalso
      omega

/-- The data block touches only `data`/`dataLength`, populating `data`
when the overflow bit is clear, and only adds error bits. -/
theorem evtDecodeDataStage_spec (d : List Nat) (dl : Nat) (hdr : EvtRecordHeader)
    (o o' : EvtDecodedContents) (e e' : Nat)
    (h : evtDecodeDataStage d dl hdr (o, e) = (o', e')) :
    o'.sourceName = o.sourceName ∧ o'.computerName = o.computerName ∧
    o'.userSid = o.userSid ∧
    o'.numStrings = o.numStrings ∧ o'.strings = o.strings ∧
    o'.timeGenerated = o.timeGenerated ∧ o'.timeWritten = o.timeWritten ∧
    (e' &&& EVT_DECODE_DATA_OVERFLOW = 0 → o'.data.isSome = true) ∧
    (∀ m, e' &&& m = 0 → e &&& m = 0) := by
  unfold evtDecodeDataStage at h
  dsimp only [] at h
  split at h
  · injection h with h1 h2
    subst h1; subst h2
    exact ⟨rfl, rfl, rfl, rfl, rfl, rfl, rfl,
      fun hb => absurd (landLorEqZeroRight hb) (by decide),
      fun m hm => landLorEqZeroLeft hm⟩
  · injection h with h1 h2
    subst h1; subst h2
    exact ⟨rfl, rfl, rfl, rfl, rfl, rfl, rfl, fun _ => rfl, fun m hm => hm⟩

/-- The trailing-length check leaves the output untouched and only adds an
error bit. -/
theorem evtDecodeTrailerStage_spec (d : List Nat) (dl : Nat) (hdr : EvtRecordHeader)
    (o o' : EvtDecodedContents) (e e' : Nat)
    (h : evtDecodeTrailerStage d dl hdr (o, e) = (o', e')) :
    o' = o ∧ (∀ m, e' &&& m = 0 → e &&& m = 0) := by
  unfold evtDecodeTrailerStage at h
  dsimp only [] at h
  split at h
  · injection h with h1 h2
    subst h1; subst h2
    exact ⟨rfl, fun m hm => landLorEqZeroLeft hm⟩
  · injection h with h1 h2
    subst h1; subst h2
    exact ⟨rfl, fun m hm => hm⟩

/-- C6: a record with a NULL payload or fewer than eight payload bytes
decodes to the all-zero output with exactly the `EVT_DECODE_INVALID` bit
and the call fails; in general the call fails iff some decode-error bit is
set, and even on failure every field that decoded successfully is
populated: the source name whenever its bit is clear, the computer name
whenever the source and computer bits are clear, the SID whenever the SID
bits are clear and `userSidLength` is nonzero, the data whenever the
data-overflow bit is clear, the string count always matching the decoded
strings, and the timestamps always copied from the header. -/
theorem C6_decode_errors (input : EvtRecordData) (out : EvtDecodedContents) (errs : Nat)
    (h : evtDecodeRecordData input = (out, errs)) :
    ((input.data = none ∨ input.dataLength < 8) →
      out = zeroDecodedContents ∧ errs = EVT_DECODE_INVALID ∧
      evtDecodeRecordResult input = .genErr) ∧
    (evtDecodeRecordResult input = .genErr ↔ errs ≠ 0) ∧
    (¬(input.data = none ∨ input.dataLength < 8) →
      (errs &&& EVT_DECODE_SOURCE_NAME_FAILED = 0 → out.sourceName.isSome = true) ∧
      (errs &&& (EVT_DECODE_SOURCE_NAME_FAILED ||| EVT_DECODE_COMPUTER_NAME_FAILED) = 0 →
        out.computerName.isSome = true) ∧
      (errs &&& (EVT_DECODE_SID_OVERFLOW ||| EVT_DECODE_SID_FAILED) = 0 →
        input.header.userSidLength ≠ 0 → out.userSid.isSome = true) ∧
      (errs &&& EVT_DECODE_DATA_OVERFLOW = 0 → out.data.isSome = true) ∧
      out.numStrings = out.strings.length ∧
      out.timeGenerated = input.header.timeGenerated ∧
      out.timeWritten = input.header.timeWritten) := by
  unfold evtDecodeRecordResult
  rw [h]
  dsimp only []
  have hiff : ((if errs ≠ 0 then EvtErr.genErr else EvtErr.ok) = EvtErr.genErr ↔ errs ≠ 0) := by
    by_cases he : errs ≠ 0 <;> simp [he]
  unfold evtDecodeRecordData at h
  by_cases hpre : input.data = none ∨ input.dataLength < 8
  · rw [if_pos hpre] at h
    injection h with h1 h2
    subst h1; subst h2
    exact ⟨fun _ => ⟨rfl, rfl, by decide⟩, hiff, fun hnp => absurd hpre hnp⟩
  · rw [if_neg hpre] at h
    dsimp only [] at h
    rcases hn : evtDecodeNames (input.data.getD []) input.dataLength input.header
      with ⟨o1, e1⟩
    rw [hn] at h
    rcases hs : evtDecodeStringsStage (input.data.getD []) input.dataLength
        input.header (o1, e1) with ⟨o2, e2⟩
    rw [hs] at h
    rcases hsd : evtDecodeSidStage (input.data.getD []) input.dataLength
        input.header (o2, e2) with ⟨o3, e3⟩
    rw [hsd] at h
    rcases hd : evtDecodeDataStage (input.data.getD []) input.dataLength
        input.header (o3, e3) with ⟨o4, e4⟩
    rw [hd] at h
    obtain ⟨hTo, hTm⟩ := evtDecodeTrailerStage_spec _ _ _ _ _ _ _ h
    subst hTo
    obtain ⟨hD1, hD2, hD3, hD4, hD5, hD6, hD7, hDpop, hDm⟩ :=
      evtDecodeDataStage_spec _ _ _ _ _ _ _ hd
    obtain ⟨hS1, hS2, hS3, hS4, hS5, hS6, hS7, hSpop, hSm⟩ :=
      evtDecodeSidStage_spec _ _ _ _ _ _ _ hsd
    obtain ⟨hG1, hG2, hG3, hG4, hG5, hG6, hGnum, hGm⟩ :=
      evtDecodeStringsStage_spec _ _ _ _ _ _ _ hs
    obtain ⟨hNs, hNc, hNtg, hNtw⟩ := evtDecodeNames_spec _ _ _ _ _ hn
    refine ⟨fun hp => absurd hp hpre, hiff, fun _ => ?_⟩
    refine ⟨?_, ?_, ?_, ?_, ?_, ?_, ?_⟩
    · intro hb
      rw [hD1, hS1, hG1]
      exact hNs (hGm _ (hSm _ (hDm _ (hTm _ hb))))
    · intro hb
      rw [hD2, hS2, hG2]
      exact hNc (hGm _ (hSm _ (hDm _ (hTm _ hb))))
    · intro hb hlen
      rw [hD3]
      exact hSpop (hDm _ (hTm _ hb)) hlen
    · intro hb
      exact hDpop (hTm _ hb)
    · rw [hD4, hD5, hS3, hS4]
      exact hGnum
    · rw [hD6, hS6, hG5]
      exact hNtg
    · rw [hD7, hS7, hG6]
      exact hNtw

set_option maxHeartbeats 4000000 in
theorem C6_decode_errors_witness :
    ((evtC5Record.data = none ∨ evtC5Record.dataLength < 8) →
      evtC6Out = zeroDecodedContents ∧ (0 : Nat) = EVT_DECODE_INVALID ∧
      evtDecodeRecordResult evtC5Record = .genErr) ∧
    (evtDecodeRecordResult evtC5Record = .genErr ↔ (0 : Nat) ≠ 0) ∧
    (¬(evtC5Record.data = none ∨ evtC5Record.dataLength < 8) →
      ((0 : Nat) &&& EVT_DECODE_SOURCE_NAME_FAILED = 0 →
        evtC6Out.sourceName.isSome = true) ∧
      ((0 : Nat) &&& (EVT_DECODE_SOURCE_NAME_FAILED ||| EVT_DECODE_COMPUTER_NAME_FAILED) = 0 →
        evtC6Out.computerName.isSome = true) ∧
      ((0 : Nat) &&& (EVT_DECODE_SID_OVERFLOW ||| EVT_DECODE_SID_FAILED) = 0 →
        evtC5Record.header.userSidLength ≠ 0 → evtC6Out.userSid.isSome = true) ∧
      ((0 : Nat) &&& EVT_DECODE_DATA_OVERFLOW = 0 → evtC6Out.data.isSome = true) ∧
      evtC6Out.numStrings = evtC6Out.strings.length ∧
      evtC6Out.timeGenerated = evtC5Record.header.timeGenerated ∧
      evtC6Out.timeWritten = evtC5Record.header.timeWritten) :=
  C6_decode_errors evtC5Record evtC6Out 0 (by decide)

set_option maxHeartbeats 1000000 in
/-- Claim C2 says a log of size exactly 88 rejects every
`overwrite = false` append with `EVT_ERROR_LOG_FULL` and raises
`LOGFULL_WRITTEN`; the code breaks it.  On the 88-byte log fresh from
`evtOpenCreate`, the free-space simulation passes (its second block's
condition is inverted), `evtPrepareWrite` then runs out of space with
nothing to evict, and the append returns plain `EVT_ERROR` with the
`LOGFULL_WRITTEN` flag clear. -/
theorem C2_size88_append_code_bug :
    ((evtOpenCreate ⟨[], 0⟩ 88).map (fun log =>
        (evtAppendRecord 4 log evtC2Record false).map Prod.fst))
      = some (some EvtErr.genErr) ∧
    EvtErr.genErr ≠ EvtErr.logFull ∧
    ((evtOpenCreate ⟨[], 0⟩ 88).map (fun log =>
        (evtAppendRecord 4 log evtC2Record false).map
          (fun r => r.2.header.flags &&& EVT_HEADER_LOGFULL_WRITTEN)))
      = some (some 0) := by
  exact ⟨by decide, by decide, by decide⟩

/-- C4: with a nonzero `oldestRecordNumber` and a cached first-record
length, `evtDeleteFirst` advances `startOffset` by the `endSpace` rule
(`48 + (-endSpace)` when the first record wraps, `48` when no record fits
behind it, `+ firstRecordLen` otherwise); if the new `startOffset` equals
`endOffset` the log becomes empty, and otherwise a successful call
refreshes `oldestRecordNumber` and the first-record length from the new
first record\'s header on disk.  The size hypotheses keep the `uint32_t`
stores below their modulus. -/
theorem C4_delete_first (log : EvtLogS)
    (hold : log.header.oldestRecordNumber ≠ 0)
    (hread : log.firstRecordRead = true)
    (hstart : log.header.startOffset + 49 ≤ 2 ^ 32)
    (hflen : log.firstRecordLen ≤ log.length)
    (hlen : log.length ≤ 2 ^ 32) :
    (evtDeleteFirst log).2.header.startOffset = c4ClaimedStart log ∧
    (c4ClaimedStart log = log.header.endOffset →
      evtDeleteFirst log = (.ok,
        { log with
          header.startOffset := c4ClaimedStart log
          header.oldestRecordNumber := 0
          firstRecordRead := false })) ∧
    (c4ClaimedStart log ≠ log.header.endOffset →
      (evtDeleteFirst log).1 = .ok →
      (evtDeleteFirst log).2.header.oldestRecordNumber =
        (parseRecordHeader
          ((log.io.bytes.drop (c4ClaimedStart log)).take 56)).recordNumber ∧
      (evtDeleteFirst log).2.firstRecordLen =
        (parseRecordHeader
          ((log.io.bytes.drop (c4ClaimedStart log)).take 56)).length ∧
      (evtDeleteFirst log).2.firstRecordRead = true) := by
  have hns : (if ((log.length : Int) - log.header.startOffset - log.firstRecordLen
        < 0) then
      uint32Of ((EVT_HEADER_LENGTH : Int) -
        ((log.length : Int) - log.header.startOffset - log.firstRecordLen))
    else if ((log.length : Int) - log.header.startOffset - log.firstRecordLen
        < (EVT_RECORD_HEADER_LENGTH : Int)) then
      EVT_HEADER_LENGTH
    else (log.header.startOffset + log.firstRecordLen) % 2 ^ 32)
      = c4ClaimedStart log := by
    unfold c4ClaimedStart uint32Of EVT_HEADER_LENGTH EVT_RECORD_HEADER_LENGTH
    by_cases h1 : log.length < log.header.startOffset + log.firstRecordLen
    · rw [if_pos (by omega : ((log.length : Int) - log.header.startOffset
        - log.firstRecordLen < 0)), if_pos h1]
      omega
    · rw [if_neg (by omega : ¬((log.length : Int) - log.header.startOffset
        - log.firstRecordLen < 0)), if_neg h1]
      by_cases h2 : log.length - (log.header.startOffset + log.firstRecordLen) < 56
      · rw [if_pos (by omega : ((log.length : Int) - log.header.startOffset
          - log.firstRecordLen < ((56 : Nat) : Int))), if_pos h2]
      · rw [if_neg (by omega : ¬((log.length : Int) - log.header.startOffset
          - log.firstRecordLen < ((56 : Nat) : Int))), if_neg h2]
        omega
  have hcache : evtReadFirstLen log = some (log.firstRecordLen, log) := by
    unfold evtReadFirstLen
    rw [hread]
    rfl
  unfold evtDeleteFirst
  rw [if_neg hold, hcache]
  dsimp only []
  rw [hns]
  by_cases hempty : c4ClaimedStart log = log.header.endOffset
  · rw [if_pos hempty]
    exact ⟨rfl, fun _ => rfl, fun hne => absurd hempty hne⟩
  · rw [if_neg hempty]
    dsimp only [evtReposition, evtRepositionOffset]
    cases hrd : fileRead ⟨log.io.bytes, c4ClaimedStart log⟩ EVT_RECORD_HEADER_LENGTH with
    | none =>
      refine ⟨rfl, fun he => absurd he hempty, fun _ hok => ?_⟩
      simp at hok
    | some pr =>
      have hb : pr.1 = (log.io.bytes.drop (c4ClaimedStart log)).take 56 := by
        unfold fileRead at hrd
        split at hrd
        · simp only [Option.some.injEq] at hrd
          rw [← hrd]
          rfl
        · exact absurd hrd (by simp)
      refine ⟨rfl, fun he => absurd he hempty, fun _ _ => ⟨?_, ?_, rfl⟩⟩
      · show (parseRecordHeader pr.1).recordNumber = _
        rw [hb]
      · show (parseRecordHeader pr.1).length = _
        rw [hb]

theorem C4_delete_first_witness :
    (evtDeleteFirst evtC4Log).2.header.startOffset = c4ClaimedStart evtC4Log ∧
    (c4ClaimedStart evtC4Log = evtC4Log.header.endOffset →
      evtDeleteFirst evtC4Log = (.ok,
        { evtC4Log with
          header.startOffset := c4ClaimedStart evtC4Log
          header.oldestRecordNumber := 0
          firstRecordRead := false })) ∧
    (c4ClaimedStart evtC4Log ≠ evtC4Log.header.endOffset →
      (evtDeleteFirst evtC4Log).1 = .ok →
      (evtDeleteFirst evtC4Log).2.header.oldestRecordNumber =
        (parseRecordHeader
          ((evtC4Log.io.bytes.drop (c4ClaimedStart evtC4Log)).take 56)).recordNumber ∧
      (evtDeleteFirst evtC4Log).2.firstRecordLen =
        (parseRecordHeader
          ((evtC4Log.io.bytes.drop (c4ClaimedStart evtC4Log)).take 56)).length ∧
      (evtDeleteFirst evtC4Log).2.firstRecordRead = true) :=
  C4_delete_first evtC4Log (by decide) (by decide) (by decide) (by decide) (by decide)

theorem headerBytes_length (h : EvtHeaderS) : (headerBytes h).length = 48 := rfl

theorem eofBytes_length (e : EvtEOFS) : (eofBytes e).length = 40 := rfl

/-- Reading back what `fileWrite` wrote at the write position. -/
theorem fileWrite_readback (f : FileS) (data : List Nat) :
    ((fileWrite f data).bytes.drop f.pos).take data.length = data := by
  unfold fileWrite
  dsimp only []
  rw [List.append_assoc]
  have key : ∀ A rest : List Nat, A.length = f.pos →
      ((A ++ (data ++ rest)).drop f.pos).take data.length = data := by
    intro A rest hA
    rw [← hA, List.drop_left, List.take_left]
  exact key _ _ (by
    simp only [List.length_append, List.length_take, List.length_replicate]
    omega)

/-- Bytes entirely behind a `fileWrite` are untouched. -/
theorem fileWrite_after (f : FileS) (data : List Nat) (n : Nat)
    (h : f.pos + data.length ≤ n) :
    (fileWrite f data).bytes.drop n = f.bytes.drop n := by
  unfold fileWrite
  dsimp only []
  have hA : (f.bytes.take f.pos ++ List.replicate (f.pos - f.bytes.length) 0
      ++ data).length = f.pos + data.length := by
    simp only [List.length_append, List.length_take, List.length_replicate]
    omega
  rw [List.drop_append_eq_append_drop]
  rw [hA]
  have h1 : (f.bytes.take f.pos ++ List.replicate (f.pos - f.bytes.length) 0
      ++ data).drop n = [] := by
    apply List.drop_eq_nil_of_le
    omega
  rw [h1, List.nil_append, List.drop_drop]
  congr 1
  omega

/-- `evtReadFirstLen` leaves everything but the position and the cache
untouched. -/
theorem evtReadFirstLen_frame (log : EvtLogS) (n : Nat) (l2 : EvtLogS)
    (h : evtReadFirstLen log = some (n, l2)) :
    l2.header = log.header ∧ l2.length = log.length ∧
    l2.io.bytes = log.io.bytes ∧ l2.changed = log.changed := by
  unfold evtReadFirstLen at h
  by_cases hfr : log.firstRecordRead = true
  · rw [hfr] at h
    simp only [reduceIte, Option.some.injEq, Prod.mk.injEq] at h
    rw [← h.2]
    exact ⟨rfl, rfl, rfl, rfl⟩
  · rw [if_neg hfr] at h
    dsimp only [] at h
    cases hrd : fileRead (evtReposition log .first).io EVT_RECORD_HEADER_LENGTH with
    | none =>
      rw [hrd] at h
      exact absurd h (by simp)
    | some pr =>
      rw [hrd] at h
      obtain ⟨b, io2⟩ := pr
      simp only [Option.some.injEq, Prod.mk.injEq] at h
      rw [← h.2]
      refine ⟨rfl, rfl, ?_, rfl⟩
      unfold fileRead at hrd
      split at hrd
      · simp only [Option.some.injEq] at hrd
        have hio := congrArg Prod.snd hrd
        dsimp only [] at hio
        rw [← hio]
        rfl
      · exact absurd hrd (by simp)

/-- `evtDeleteFirst` never moves `endOffset`. -/
theorem evtDeleteFirst_endOffset (log : EvtLogS) :
    (evtDeleteFirst log).2.header.endOffset = log.header.endOffset := by
  unfold evtDeleteFirst
  split
  · rfl
  · split
    · rfl
    · rename_i firstLen l2 hsome
      have hfr := (evtReadFirstLen_frame _ _ _ hsome).1
      dsimp only []
      rw [← hfr]
      split
      all_goals split
      all_goals try split
      all_goals try split
      all_goals rfl

/-- The eviction loop never moves `endOffset`. -/
theorem evtPrepareLoop_endOffset (fuel : Nat) (log : EvtLogS) (size : Nat)
    (e : EvtErr) (l1 : EvtLogS) (h : evtPrepareLoop fuel log size = some (e, l1)) :
    l1.header.endOffset = log.header.endOffset := by
  induction fuel generalizing log with
  | zero => exact absurd h (by simp [evtPrepareLoop])
  | succ n ih =>
    unfold evtPrepareLoop at h
    split at h
    · simp only [Option.some.injEq, Prod.mk.injEq] at h
      rw [← h.2]
    · rcases hd : evtDeleteFirst log with ⟨e2, l2⟩
      rw [hd] at h
      have hde := evtDeleteFirst_endOffset log
      rw [hd] at hde
      cases e2 with
      | ok =>
        rw [← hde]
        exact ih l2 h
      | genErr =>
        simp only [Option.some.injEq, Prod.mk.injEq] at h
        rw [← h.2, ← hde]
      | ioErr =>
        simp only [Option.some.injEq, Prod.mk.injEq] at h
        rw [← h.2, ← hde]
      | eofErr =>
        simp only [Option.some.injEq, Prod.mk.injEq] at h
        rw [← h.2, ← hde]
      | logFull =>
        simp only [Option.some.injEq, Prod.mk.injEq] at h
        rw [← h.2, ← hde]

/-- After a successful `evtPrepareWrite` the stream sits at `endOffset`,
which is either the post-header offset 48 or the caller\'s old value. -/
theorem evtPrepareWrite_out (fuel : Nat) (log : EvtLogS) (size0 : Nat)
    (lp : EvtLogS) (h : evtPrepareWrite fuel log size0 = some (.ok, lp)) :
    lp.io.pos = lp.header.endOffset ∧
    (lp.header.endOffset = EVT_HEADER_LENGTH ∨
      lp.header.endOffset = log.header.endOffset) := by
  unfold evtPrepareWrite at h
  dsimp only [] at h
  rcases hl : evtPrepareLoop fuel log
      (if (log.header.endOffset : Int) ≥ (log.length : Int) - EVT_RECORD_HEADER_LENGTH
        then uint32Of (size0 + ((log.length : Int) - log.header.endOffset))
        else size0) with _ | pr
  · rw [hl] at h
    exact absurd h (by simp)
  · rw [hl] at h
    rcases pr with ⟨e0, l1⟩
    have hloopEnd := evtPrepareLoop_endOffset _ _ _ _ _ hl
    dsimp only [] at h
    split at h
    · simp only [Option.some.injEq, Prod.mk.injEq] at h
      exact absurd h.1 (by assumption)
    · split at h
      · simp only [Option.some.injEq, Prod.mk.injEq] at h
        rw [← h.2]
        exact ⟨rfl, Or.inl rfl⟩
      · split at h
        · simp only [Option.some.injEq, Prod.mk.injEq] at h
          rw [← h.2]
          exact ⟨rfl, Or.inl rfl⟩
        · simp only [Option.some.injEq, Prod.mk.injEq] at h
          rw [← h.2]
          exact ⟨rfl, Or.inr hloopEnd⟩

theorem parseHeader_flags (h : EvtHeaderS) :
    (parseHeader (headerBytes h)).flags = h.flags % 2 ^ 32 := by
  show rd32 (headerBytes h) 36 = h.flags % 2 ^ 32
  unfold headerBytes le32 rd32
  simp only [List.getD_cons_zero, List.getD_cons_succ, List.cons_append,
    List.nil_append]
  omega

theorem closeClearsDirty (x : Nat) :
    ((x &&& (2 ^ 32 - 1 - EVT_HEADER_DIRTY)) % 2 ^ 32) &&& EVT_HEADER_DIRTY = 0 := by
  unfold EVT_HEADER_DIRTY
  have h0 : x &&& (2 ^ 32 - 1 - 1) &&& 1 = 0 := by
    rw [Nat.and_assoc]
    have h1 : (2 ^ 32 - 1 - 1) &&& 1 = 0 := by decide
    rw [h1, Nat.and_zero]
  rw [Nat.and_one_is_mod] at h0 ⊢
  omega

theorem evtWriteHeader_take48 (x : EvtLogS) :
    (evtWriteHeader x).io.bytes.take 48 = headerBytes x.header := by
  have h := fileWrite_readback { bytes := x.io.bytes, pos := 0 } (headerBytes x.header)
  rw [headerBytes_length, List.drop_zero] at h
  exact h

theorem evtWriteHeader_drop (x : EvtLogS) (n : Nat) (h : 48 ≤ n) :
    (evtWriteHeader x).io.bytes.drop n = x.io.bytes.drop n := by
  have h2 := fileWrite_after { bytes := x.io.bytes, pos := 0 } (headerBytes x.header) n
    (by rw [headerBytes_length]; show 0 + 48 ≤ n; omega)
  exact h2

set_option maxHeartbeats 1000000 in
/-- Claim C8 says every error-free `evtClose` leaves the DIRTY flag clear
and a valid sentinel at `endOffset`; the code breaks it for a handle that
never wrote.  Opening a dirty log file and closing it immediately returns
`EVT_OK` while the file\'s stored header still carries DIRTY (and nothing
was written at all): `evtClose` only writes when `log->changed` is set. -/
theorem C8_close_counterexample :
    (evtOpen evtC8File).isSome = true ∧
    ((evtOpen evtC8File).map (fun log => (evtClose 1 log).map (fun r =>
        (r.1, (parseHeader (r.2.io.bytes.take 48)).flags &&& EVT_HEADER_DIRTY))))
      = some (some (.ok, 1)) ∧
    (1 : Nat) ≠ 0 := by
  exact ⟨by decide, by decide, by decide⟩

/-- Claim C8, amended to handles that wrote: when `changed` is set and
`evtClose` succeeds, the stored header\'s DIRTY flag is clear and the
40-byte EOF sentinel (sizes 0x28, magic `0x11111111..0x44444444`, and the
final offsets and record numbers) sits at the final `endOffset`, which
stays at or past the 48-byte header. -/
theorem C8_close_amended (fuel : Nat) (log : EvtLogS) (l2 : EvtLogS)
    (hch : log.changed = true)
    (hend : EVT_HEADER_LENGTH ≤ log.header.endOffset)
    (hok : evtClose fuel log = some (.ok, l2)) :
    (parseHeader (l2.io.bytes.take 48)).flags &&& EVT_HEADER_DIRTY = 0 ∧
    EVT_HEADER_LENGTH ≤ l2.header.endOffset ∧
    (l2.io.bytes.drop l2.header.endOffset).take 40 =
      eofBytes ⟨EVT_EOF_LENGTH, 0x11111111, 0x22222222, 0x33333333, 0x44444444,
        l2.header.startOffset, l2.header.endOffset,
        l2.header.currentRecordNumber, l2.header.oldestRecordNumber,
        EVT_EOF_LENGTH⟩ := by
  unfold evtClose at hok
  rw [hch] at hok
  simp only [reduceIte] at hok
  rcases hw : evtWriteEOF fuel log with _ | ⟨e1, l1⟩
  · rw [hw] at hok
    exact absurd hok (by simp)
  · rw [hw] at hok
    dsimp only [] at hok
    unfold evtWriteEOF at hw
    rcases hp : evtPrepareWrite fuel log EVT_EOF_LENGTH with _ | ⟨e0, lp⟩
    · rw [hp] at hw
      exact absurd hw (by simp)
    · rw [hp] at hw
      dsimp only [] at hw
      cases e0 with
      | genErr =>
        rw [if_pos (by simp)] at hw
        simp only [Option.some.injEq, Prod.mk.injEq] at hw
        rw [← hw.1, ← hw.2] at hok
        rw [if_pos (by simp)] at hok
        simp at hok
      | ioErr =>
        rw [if_pos (by simp)] at hw
        simp only [Option.some.injEq, Prod.mk.injEq] at hw
        rw [← hw.1, ← hw.2] at hok
        rw [if_pos (by simp)] at hok
        simp at hok
      | eofErr =>
        rw [if_pos (by simp)] at hw
        simp only [Option.some.injEq, Prod.mk.injEq] at hw
        rw [← hw.1, ← hw.2] at hok
        rw [if_pos (by simp)] at hok
        simp at hok
      | logFull =>
        rw [if_pos (by simp)] at hw
        simp only [Option.some.injEq, Prod.mk.injEq] at hw
        rw [← hw.1, ← hw.2] at hok
        rw [if_pos (by simp)] at hok
        simp at hok
      | ok =>
        rw [if_neg (by simp)] at hw
        simp only [Option.some.injEq, Prod.mk.injEq] at hw
        obtain ⟨he1, hl1⟩ := hw
        subst he1
        subst hl1
        rw [if_neg (by simp)] at hok
        simp only [Option.some.injEq, Prod.mk.injEq, true_and] at hok
        obtain ⟨hpos, hor⟩ := evtPrepareWrite_out fuel log EVT_EOF_LENGTH lp hp
        generalize hR : (if lp.header.oldestRecordNumber = 0 then
          { lp with header.startOffset := lp.header.endOffset } else lp) = r at hok
        have hrio : r.io = lp.io := by
          rw [← hR]
          split <;> rfl
        have hre : r.header.endOffset = lp.header.endOffset := by
          rw [← hR]
          split <;> rfl
        have hee : EVT_HEADER_LENGTH ≤ lp.header.endOffset := by
          rcases hor with h48 | hsame
          · rw [h48]
          · rw [hsame]
            exact hend
        have h1 : l2.io.bytes.take 48 = headerBytes { r.header with
            flags := r.header.flags &&& (2 ^ 32 - 1 - EVT_HEADER_DIRTY) } := by
          rw [← hok]
          exact evtWriteHeader_take48 _
        have h2 : l2.header.endOffset = r.header.endOffset := by
          rw [← hok]
          rfl
        have h3 : l2.header.startOffset = r.header.startOffset := by
          rw [← hok]
          rfl
        have h4 : l2.header.currentRecordNumber = r.header.currentRecordNumber := by
          rw [← hok]
          rfl
        have h5 : l2.header.oldestRecordNumber = r.header.oldestRecordNumber := by
          rw [← hok]
          rfl
        have h6 : l2.io.bytes.drop r.header.endOffset =
            (fileWrite r.io (eofBytes
              ⟨EVT_EOF_LENGTH, 0x11111111, 0x22222222, 0x33333333, 0x44444444,
               r.header.startOffset, r.header.endOffset,
               r.header.currentRecordNumber, r.header.oldestRecordNumber,
               EVT_EOF_LENGTH⟩)).bytes.drop r.header.endOffset := by
          rw [← hok]
          exact evtWriteHeader_drop _ _ (by rw [hre]; exact hee)
        refine ⟨?_, ?_, ?_⟩
        · rw [h1, parseHeader_flags]
          exact closeClearsDirty _
        · rw [h2, hre]
          exact hee
        · rw [h2, h3, h4, h5, h6]
          have hn : r.header.endOffset = r.io.pos := by
            rw [hre, ← hpos, hrio]
          rw [hn]
          have hrb := fileWrite_readback r.io (eofBytes
            ⟨EVT_EOF_LENGTH, 0x11111111, 0x22222222, 0x33333333, 0x44444444,
             r.header.startOffset, r.io.pos,
             r.header.currentRecordNumber, r.header.oldestRecordNumber,
             EVT_EOF_LENGTH⟩)
          rw [eofBytes_length] at hrb
          exact hrb

set_option maxHeartbeats 4000000 in
set_option maxRecDepth 4000 in
theorem C8_close_amended_witness :
    (parseHeader (evtC8Closed.io.bytes.take 48)).flags &&& EVT_HEADER_DIRTY = 0 ∧
    EVT_HEADER_LENGTH ≤ evtC8Closed.header.endOffset ∧
    (evtC8Closed.io.bytes.drop evtC8Closed.header.endOffset).take 40 =
      eofBytes ⟨EVT_EOF_LENGTH, 0x11111111, 0x22222222, 0x33333333, 0x44444444,
        evtC8Closed.header.startOffset, evtC8Closed.header.endOffset,
        evtC8Closed.header.currentRecordNumber,
        evtC8Closed.header.oldestRecordNumber, EVT_EOF_LENGTH⟩ :=
  C8_close_amended 2 evtC8Log evtC8Closed (by decide) (by decide) (by decide)

set_option maxHeartbeats 8000000 in
set_option maxRecDepth 8000 in
/-- Claim C3\'s invariant fails on both counts.  Three 80-byte appends into
a 288-byte log leave `endOffset = maxSize` (the claim says strictly
below), and the fourth append wraps: `evtPrepareWrite` evicts the first
record and fills the tail, and the new record ends exactly where the
evicted one ended, leaving `startOffset = endOffset` while two records
remain (`oldestRecordNumber = 2`). -/
theorem C3_reachable_counterexample :
    (c3S3.map (fun l => (l.header.endOffset, l.header.maxSize))) =
      some (288, 288) ∧
    ¬(288 < 288) ∧
    (c3S4.map (fun l => (decide (l.header.startOffset = l.header.endOffset),
        l.header.oldestRecordNumber))) = some (true, 2) ∧
    (2 : Nat) ≠ 0 := by
  exact ⟨by decide, by decide, by decide, by decide⟩

/-- All entries of a byte buffer are byte values. -/
def bytesOk (l : List Nat) : Prop := ∀ b ∈ l, b < 256

theorem fileWrite_length (f : FileS) (d : List Nat) :
    (fileWrite f d).bytes.length = max f.bytes.length (f.pos + d.length) := by
  unfold fileWrite
  simp only [List.length_append, List.length_take, List.length_replicate,
    List.length_drop]
  omega

theorem fileWrite_bytesOk (f : FileS) (d : List Nat)
    (hf : bytesOk f.bytes) (hd : bytesOk d) : bytesOk (fileWrite f d).bytes := by
  unfold fileWrite bytesOk
  intro b hb
  simp only [List.mem_append] at hb
  rcases hb with ((hb | hb) | hb) | hb
  · exact hf b (List.take_subset _ _ hb)
  · rw [List.eq_of_mem_replicate hb]
    omega
  · exact hd b hb
  · exact hf b (List.drop_subset _ _ hb)

theorem le32_bytesOk (n : Nat) : bytesOk (le32 n) := by
  intro b hb
  simp only [le32, List.mem_cons, List.not_mem_nil, or_false] at hb
  rcases hb with h | h | h | h <;> rw [h] <;> omega

theorem le16_bytesOk (n : Nat) : bytesOk (le16 n) := by
  intro b hb
  simp only [le16, List.mem_cons, List.not_mem_nil, or_false] at hb
  rcases hb with h | h <;> rw [h] <;> omega

theorem append_bytesOk {a b : List Nat} (ha : bytesOk a) (hb : bytesOk b) :
    bytesOk (a ++ b) := by
  intro x hx
  rcases List.mem_append.mp hx with h | h
  · exact ha x h
  · exact hb x h

theorem getD_lt {l : List Nat} (i : Nat) (h : bytesOk l) : l.getD i 0 < 256 := by
  induction l generalizing i with
  | nil => simp [List.getD]
  | cons a t ih =>
    cases i with
    | zero => exact h a (List.mem_cons_self a t)
    | succ j => exact ih j (fun b hb => h b (List.mem_cons_of_mem a hb))

theorem headerBytes_bytesOk (h : EvtHeaderS) : bytesOk (headerBytes h) := by
  unfold headerBytes
  repeat' first
    | apply append_bytesOk
    | exact le32_bytesOk _

set_option maxHeartbeats 1000000 in
theorem recordHeaderBytes_bytesOk (h : EvtRecordHeader) :
    bytesOk (recordHeaderBytes h) := by
  unfold recordHeaderBytes
  repeat' first
    | apply append_bytesOk
    | exact le32_bytesOk _
    | exact le16_bytesOk _

theorem eofBytes_bytesOk (e : EvtEOFS) : bytesOk (eofBytes e) := by
  unfold eofBytes
  repeat' first
    | apply append_bytesOk
    | exact le32_bytesOk _

theorem fillerBytes_bytesOk (n : Nat) : bytesOk (fillerBytes n) := by
  intro b hb
  unfold fillerBytes at hb
  rcases List.mem_map.mp hb with ⟨i, _, hi⟩
  rw [← hi]
  have h4 : i % 4 = 0 ∨ i % 4 = 1 ∨ i % 4 = 2 ∨ i % 4 = 3 := by omega
  rcases h4 with h | h | h | h <;> rw [h] <;> decide

theorem cBytes_bytesOk {d : List Nat} (n : Nat) (hd : ∀ b ∈ d, b < 256) :
    bytesOk (cBytes d n) := by
  intro b hb
  rcases List.mem_append.mp hb with h | h
  · exact hd b (List.take_subset _ _ h)
  · rw [List.eq_of_mem_replicate h]
    omega

theorem rd32_lt (b : List Nat) (i : Nat) (hb : bytesOk b) :
    rd32 b i < 2 ^ 32 := by
  unfold rd32
  have h0 := getD_lt i hb
  have h1 := getD_lt (i + 1) hb
  have h2 := getD_lt (i + 2) hb
  have h3 := getD_lt (i + 3) hb
  omega

/-- The well-formedness invariant the C3 induction carries: the remembered
length matches `maxSize` and the file, offsets lie in `[48, maxSize]`, the
log is at most 2 GiB (`maxSize` is a `uint32_t`; larger logs overflow the
free-space arithmetic), the file holds byte values, and whenever records
exist the first-record cache is set, below `2^32`, and `startOffset`
leaves room for a record header. -/
structure LogWF (log : EvtLogS) : Prop where
  len_eq : log.length = log.header.maxSize
  bytes_len : log.io.bytes.length = log.length
  pos_le : log.io.pos ≤ log.length
  max_le : log.header.maxSize ≤ 2 ^ 31
  bytes_ok : bytesOk log.io.bytes
  start_ge : EVT_HEADER_LENGTH ≤ log.header.startOffset
  start_le : log.header.startOffset ≤ log.header.maxSize
  end_ge : EVT_HEADER_LENGTH ≤ log.header.endOffset
  end_le : log.header.endOffset ≤ log.header.maxSize
  cache : log.header.oldestRecordNumber ≠ 0 →
    log.firstRecordRead = true ∧ log.firstRecordLen < 2 ^ 32 ∧
    log.header.startOffset + EVT_RECORD_HEADER_LENGTH ≤ log.header.maxSize

theorem fileTruncate_length (f : FileS) (size : Nat) :
    (fileTruncate f size).bytes.length = size := by
  unfold fileTruncate
  simp only [List.length_append, List.length_take, List.length_replicate]
  omega

theorem fileTruncate_bytesOk (f : FileS) (size : Nat) (hf : bytesOk f.bytes) :
    bytesOk (fileTruncate f size).bytes := by
  intro b hb
  rcases List.mem_append.mp hb with h | h
  · exact hf b (List.take_subset _ _ h)
  · rw [List.eq_of_mem_replicate h]
    omega

theorem evtOpenCreate_wf (io : FileS) (size : Nat) (log : EvtLogS)
    (h48 : EVT_HEADER_LENGTH ≤ size) (h31 : size ≤ 2 ^ 31)
    (hio : bytesOk io.bytes)
    (h : evtOpenCreate io size = some log) : LogWF log := by
  unfold evtOpenCreate at h
  rw [if_neg (by unfold EVT_HEADER_LENGTH at h48 ⊢; omega)] at h
  dsimp only [] at h
  simp only [Option.some.injEq] at h
  subst h
  have hblen : (fileWrite
      { bytes := (fileTruncate io size).bytes, pos := 0 }
      (headerBytes { evtInitializeHeader size with
        flags := EVT_HEADER_DIRTY })).bytes.length = size := by
    rw [fileWrite_length, headerBytes_length]
    dsimp only []
    rw [fileTruncate_length]
    unfold EVT_HEADER_LENGTH at h48
    omega
  refine ⟨rfl, ?_, ?_, h31, ?_, ?_, ?_, ?_, ?_, ?_⟩
  · exact hblen
  · show (48 : Nat) ≤ size
    exact h48
  · exact fileWrite_bytesOk _ _ (fileTruncate_bytesOk io size hio)
      (headerBytes_bytesOk _)
  · exact le_refl _
  · exact h48
  · exact le_refl _
  · exact h48
  · intro hcon
    exact absurd rfl hcon

set_option maxHeartbeats 1000000 in
/-- A successful `evtDeleteFirst` preserves the invariant and everything
except `startOffset`, the first-record cache and the stream position. -/
theorem evtDeleteFirst_wf (log l2 : EvtLogS) (hwf : LogWF log)
    (h : evtDeleteFirst log = (.ok, l2)) :
    LogWF l2 ∧ l2.header.endOffset = log.header.endOffset ∧
    l2.header.maxSize = log.header.maxSize ∧ l2.length = log.length ∧
    l2.io.bytes = log.io.bytes ∧ l2.changed = log.changed := by
  have hlen := hwf.len_eq
  have hblen := hwf.bytes_len
  have hmax := hwf.max_le
  have hsg := hwf.start_ge
  have hsl := hwf.start_le
  have heg := hwf.end_ge
  have hel := hwf.end_le
  have hc1 : EVT_HEADER_LENGTH = 48 := rfl
  have hc2 : EVT_RECORD_HEADER_LENGTH = 56 := rfl
  unfold evtDeleteFirst at h
  by_cases hold : log.header.oldestRecordNumber = 0
  · rw [if_pos hold] at h
    exact absurd (congrArg Prod.fst h) (by simp)
  · rw [if_neg hold] at h
    obtain ⟨hfr, hL, hsb⟩ := hwf.cache hold
    have hcache : evtReadFirstLen log = some (log.firstRecordLen, log) := by
      unfold evtReadFirstLen
      rw [hfr]
      rfl
    rw [hcache] at h
    dsimp only [evtReposition, evtRepositionOffset] at h
    generalize hNS : (if ((log.length : Int) - log.header.startOffset
          - log.firstRecordLen < 0) then
        uint32Of ((EVT_HEADER_LENGTH : Int) -
          ((log.length : Int) - log.header.startOffset - log.firstRecordLen))
      else if ((log.length : Int) - log.header.startOffset - log.firstRecordLen
          < (EVT_RECORD_HEADER_LENGTH : Int)) then
        EVT_HEADER_LENGTH
      else (log.header.startOffset + log.firstRecordLen) % 2 ^ 32) = ns at h
    have hns48 : EVT_HEADER_LENGTH ≤ ns := by
      rw [← hNS]
      unfold uint32Of
      split
      · rename_i hneg
        omega
      · split
        · omega
        · rename_i h1 h2
          omega
    by_cases hemp : ns = log.header.endOffset
    · rw [if_pos hemp] at h
      have hl2 := congrArg Prod.snd h
      dsimp only [] at hl2
      rw [← hl2]
      refine ⟨⟨hlen, hblen, hwf.pos_le, hmax, hwf.bytes_ok, ?_, ?_, heg, hel, ?_⟩,
        rfl, rfl, rfl, rfl, rfl⟩
      · show EVT_HEADER_LENGTH ≤ ns
        exact hns48
      · show ns ≤ log.header.maxSize
        rw [hemp]
        exact hel
      · intro hcon
        exact absurd rfl hcon
    · rw [if_neg hemp] at h
      cases hrd : fileRead { bytes := log.io.bytes, pos := ns }
          EVT_RECORD_HEADER_LENGTH with
      | none =>
        rw [hrd] at h
        exact absurd (congrArg Prod.fst h) (by simp)
      | some pr =>
        rw [hrd] at h
        obtain ⟨b, io5⟩ := pr
        have hl2 := congrArg Prod.snd h
        dsimp only [] at hl2
        unfold fileRead at hrd
        split at hrd
        · rename_i hbound
          dsimp only [] at hbound
          simp only [Option.some.injEq, Prod.mk.injEq] at hrd
          obtain ⟨hb, hio5⟩ := hrd
          rw [← hl2]
          have hbOk : bytesOk b := by
            rw [← hb]
            intro x hx
            exact hwf.bytes_ok x (List.drop_subset _ _ (List.take_subset _ _ hx))
          refine ⟨⟨hlen, ?_, ?_, hmax, ?_, ?_, ?_, heg, hel, ?_⟩,
            rfl, rfl, rfl, ?_, rfl⟩
          · show io5.bytes.length = log.length
            rw [← hio5]
            exact hblen
          · show io5.pos ≤ log.length
            rw [← hio5]
            dsimp only []
            unfold EVT_RECORD_HEADER_LENGTH at hbound
            omega
          · show bytesOk io5.bytes
            rw [← hio5]
            exact hwf.bytes_ok
          · exact hns48
          · show ns ≤ log.header.maxSize
            unfold EVT_RECORD_HEADER_LENGTH at hbound
            omega
          · intro _
            refine ⟨rfl, ?_, ?_⟩
            · show rd32 b 0 < 2 ^ 32
              exact rd32_lt b 0 hbOk
            · show ns + EVT_RECORD_HEADER_LENGTH ≤ log.header.maxSize
              unfold EVT_RECORD_HEADER_LENGTH at hbound ⊢
              omega
          · show io5.bytes = log.io.bytes
            rw [← hio5]
        · exact absurd hrd (by simp)

/-- A successful eviction loop preserves the invariant and the frame, and
exits with enough free space. -/
theorem evtPrepareLoop_wf (fuel : Nat) (log : EvtLogS) (size : Nat)
    (l1 : EvtLogS) (hwf : LogWF log)
    (h : evtPrepareLoop fuel log size = some (.ok, l1)) :
    LogWF l1 ∧ l1.header.endOffset = log.header.endOffset ∧
    l1.header.maxSize = log.header.maxSize ∧ l1.length = log.length ∧
    l1.io.bytes = log.io.bytes ∧ l1.changed = log.changed ∧
    evtPrepareSpace l1 ≥ size := by
  induction fuel generalizing log with
  | zero => exact absurd h (by simp [evtPrepareLoop])
  | succ n ih =>
    unfold evtPrepareLoop at h
    split at h
    · simp only [Option.some.injEq, Prod.mk.injEq, true_and] at h
      subst h
      refine ⟨hwf, rfl, rfl, rfl, rfl, rfl, by assumption⟩
    · rcases hd : evtDeleteFirst log with ⟨e2, l3⟩
      rw [hd] at h
      cases e2 with
      | ok =>
        obtain ⟨hwf3, he3, hm3, hl3, hb3, hc3⟩ := evtDeleteFirst_wf log l3 hwf hd
        obtain ⟨w1, w2, w3, w4, w5, w6, w7⟩ := ih l3 hwf3 h
        exact ⟨w1, by rw [w2, he3], by rw [w3, hm3], by rw [w4, hl3],
          by rw [w5, hb3], by rw [w6, hc3], w7⟩
      | genErr => exact absurd (congrArg (fun r => r.map Prod.fst) h) (by simp)
      | ioErr => exact absurd (congrArg (fun r => r.map Prod.fst) h) (by simp)
      | eofErr => exact absurd (congrArg (fun r => r.map Prod.fst) h) (by simp)
      | logFull => exact absurd (congrArg (fun r => r.map Prod.fst) h) (by simp)

/-- What a successful `evtPrepareWrite` guarantees: the invariant, frame
facts, the stream parked at `endOffset`, and one of three shapes — the
emptied log collapsed to 48/48 with room for `size0` bytes, the wrapped
log with `endOffset` back at 48 and `size0` bytes free before
`startOffset`, or the untouched `endOffset` at least a record header away
from the end with the loop\'s free space at hand. -/
theorem evtPrepareWrite_wf (fuel : Nat) (log : EvtLogS) (size0 : Nat)
    (lp : EvtLogS) (hwf : LogWF log) (hs0 : 40 ≤ size0) (hs1 : size0 ≤ 2 ^ 31)
    (h : evtPrepareWrite fuel log size0 = some (.ok, lp)) :
    LogWF lp ∧ lp.header.maxSize = log.header.maxSize ∧
    lp.length = log.length ∧ lp.io.pos = lp.header.endOffset ∧
    lp.io.bytes.length = log.io.bytes.length ∧ lp.changed = log.changed ∧
    ((lp.header.oldestRecordNumber = 0 ∧ lp.header.startOffset = 48 ∧
        lp.header.endOffset = 48 ∧ 48 + size0 ≤ lp.header.maxSize) ∨
      (lp.header.endOffset = 48 ∧ 48 + size0 ≤ lp.header.startOffset) ∨
      (lp.header.endOffset + 56 < lp.length ∧
        (lp.header.startOffset > lp.header.endOffset →
          lp.header.endOffset + size0 ≤ lp.header.startOffset) ∧
        (lp.header.startOffset ≤ lp.header.endOffset →
          size0 ≤ (lp.header.startOffset - 48) +
            (lp.length - lp.header.endOffset)))) := by
  have hc1 : EVT_HEADER_LENGTH = 48 := rfl
  have hc2 : EVT_RECORD_HEADER_LENGTH = 56 := rfl
  unfold evtPrepareWrite at h
  dsimp only [] at h
  rcases hl : evtPrepareLoop fuel log
      (if (log.header.endOffset : Int) ≥ (log.length : Int) - EVT_RECORD_HEADER_LENGTH
        then uint32Of (size0 + ((log.length : Int) - log.header.endOffset))
        else size0) with _ | ⟨e0, l1⟩
  · rw [hl] at h
    exact absurd h (by simp)
  · rw [hl] at h
    dsimp only [] at h
    cases e0 with
    | genErr => rw [if_pos (by simp)] at h; simp at h
    | ioErr => rw [if_pos (by simp)] at h; simp at h
    | eofErr => rw [if_pos (by simp)] at h; simp at h
    | logFull => rw [if_pos (by simp)] at h; simp at h
    | ok =>
      rw [if_neg (by simp)] at h
      obtain ⟨hwf1, he1, hm1, hl1, hb1, hch1, hsp⟩ :=
        evtPrepareLoop_wf fuel log _ l1 hwf hl
      -- the adjusted size, with its wrap ruled out by the invariant
      have hszval : (if (log.header.endOffset : Int) ≥
            (log.length : Int) - EVT_RECORD_HEADER_LENGTH
          then uint32Of (size0 + ((log.length : Int) - log.header.endOffset))
          else size0) =
          (if (log.header.endOffset : Int) ≥
            (log.length : Int) - EVT_RECORD_HEADER_LENGTH
          then size0 + (log.length - log.header.endOffset)
          else size0) := by
        split
        · unfold uint32Of
          have := hwf.end_le
          have := hwf.len_eq
          have := hwf.max_le
          omega
        · rfl
      rw [hszval] at hsp
      -- the loop space, with its wrap ruled out
      have hspval : evtPrepareSpace l1 =
          (if l1.header.startOffset > l1.header.endOffset then
            l1.header.startOffset - l1.header.endOffset
          else (l1.header.startOffset - 48) + (l1.length - l1.header.endOffset)) := by
        unfold evtPrepareSpace uint32Of
        have := hwf1.start_ge
        have := hwf1.start_le
        have := hwf1.end_le
        have := hwf1.len_eq
        have := hwf1.max_le
        split
        · rfl
        · omega
      rw [hspval] at hsp
      split at h
      · -- the emptied log: collapse to 48/48
        rename_i hold0
        simp only [Option.some.injEq, Prod.mk.injEq, true_and] at h
        rw [← h]
        have hcol : 48 + size0 ≤ l1.header.maxSize := by
          have h1 := hwf1.start_ge
          have h2 := hwf1.start_le
          have h3 := hwf1.end_ge
          have h4 := hwf1.end_le
          have h5 := hwf1.len_eq
          have h6 := hwf.len_eq
          have h7 := hwf.end_ge
          have h8 := hwf.end_le
          have h9 := hm1
          rw [he1, hl1] at hsp
          split at hsp <;> split at hsp <;> omega
        have h3 := hwf1.end_ge
        have h4 := hwf1.end_le
        have h5 := hwf1.len_eq
        refine ⟨⟨?_, ?_, ?_, ?_, ?_, ?_, ?_, ?_, ?_, ?_⟩,
          show l1.header.maxSize = log.header.maxSize from hm1,
          show l1.length = log.length from hl1, rfl,
          show l1.io.bytes.length = log.io.bytes.length from by rw [hb1],
          show l1.changed = log.changed from hch1,
          Or.inl ⟨show l1.header.oldestRecordNumber = 0 from hold0, rfl, rfl,
            show 48 + size0 ≤ l1.header.maxSize from hcol⟩⟩
        · exact hwf1.len_eq
        · exact hwf1.bytes_len
        · show EVT_HEADER_LENGTH ≤ l1.length
          omega
        · exact hwf1.max_le
        · exact hwf1.bytes_ok
        · show EVT_HEADER_LENGTH ≤ EVT_HEADER_LENGTH
          omega
        · show EVT_HEADER_LENGTH ≤ l1.header.maxSize
          omega
        · show EVT_HEADER_LENGTH ≤ EVT_HEADER_LENGTH
          omega
        · show EVT_HEADER_LENGTH ≤ l1.header.maxSize
          omega
        · intro hcon
          exact absurd hold0 hcon
      · rename_i hold0
        split at h
        · -- the wrapping log: pad with filler and fold endOffset back
          rename_i hfil
          simp only [Option.some.injEq, Prod.mk.injEq, true_and] at h
          rw [← h]
          have h1 := hwf1.start_ge
          have h2 := hwf1.start_le
          have h3 := hwf1.end_ge
          have h4 := hwf1.end_le
          have h5 := hwf1.len_eq
          have h6 := hwf1.pos_le
          have h7 := hwf1.bytes_len
          have hflen : (fillerBytes (((l1.length : Int) - (l1.io.pos : Int)).toNat)).length
              = l1.length - l1.io.pos := by
            unfold fillerBytes
            rw [List.length_map, List.length_range]
            omega
          have hstart : 48 + size0 ≤ l1.header.startOffset := by
            rw [he1, hl1] at hsp hfil
            have h6' := hwf.len_eq
            have h7' := hwf.end_ge
            have h8' := hwf.end_le
            split at hsp <;> (try split at hsp) <;> omega
          refine ⟨⟨?_, ?_, ?_, ?_, ?_, ?_, ?_, ?_, ?_, ?_⟩,
            show l1.header.maxSize = log.header.maxSize from hm1,
            show l1.length = log.length from hl1, rfl, ?_,
            show l1.changed = log.changed from hch1,
            Or.inr (Or.inl ⟨rfl,
              show 48 + size0 ≤ l1.header.startOffset from hstart⟩)⟩
          · exact hwf1.len_eq
          · show (fileWrite l1.io
                (fillerBytes (((l1.length : Int) - (l1.io.pos : Int)).toNat))).bytes.length
              = l1.length
            rw [fileWrite_length, hflen]
            omega
          · show EVT_HEADER_LENGTH ≤ l1.length
            omega
          · exact hwf1.max_le
          · show bytesOk (fileWrite l1.io
              (fillerBytes (((l1.length : Int) - (l1.io.pos : Int)).toNat))).bytes
            exact fileWrite_bytesOk _ _ hwf1.bytes_ok (fillerBytes_bytesOk _)
          · exact hwf1.start_ge
          · exact hwf1.start_le
          · show EVT_HEADER_LENGTH ≤ EVT_HEADER_LENGTH
            omega
          · show EVT_HEADER_LENGTH ≤ l1.header.maxSize
            omega
          · exact hwf1.cache
          · show (fileWrite l1.io
                (fillerBytes (((l1.length : Int) - (l1.io.pos : Int)).toNat))).bytes.length
              = log.io.bytes.length
            rw [fileWrite_length, hflen, hb1]
            have h7x : log.io.bytes.length = l1.length := by
              rw [← hb1]
              exact h7
            omega
        · -- the untouched log: just seek to endOffset
          rename_i hfil
          simp only [Option.some.injEq, Prod.mk.injEq, true_and] at h
          rw [← h]
          have h1 := hwf1.start_ge
          have h2 := hwf1.start_le
          have h3 := hwf1.end_ge
          have h4 := hwf1.end_le
          have h5 := hwf1.len_eq
          have hfacts : l1.header.endOffset + 56 < l1.length ∧
              (l1.header.startOffset > l1.header.endOffset →
                l1.header.endOffset + size0 ≤ l1.header.startOffset) ∧
              (l1.header.startOffset ≤ l1.header.endOffset →
                size0 ≤ (l1.header.startOffset - 48) +
                  (l1.length - l1.header.endOffset)) := by
            rw [he1, hl1] at hsp hfil
            have h6 := hwf.len_eq
            have h7 := hwf.end_ge
            have h8 := hwf.end_le
            split at hsp <;> (try split at hsp) <;>
              refine ⟨by omega, fun hgt => by omega, fun hle => by omega⟩
          refine ⟨⟨?_, ?_, ?_, ?_, ?_, ?_, ?_, ?_, ?_, ?_⟩,
            show l1.header.maxSize = log.header.maxSize from hm1,
            show l1.length = log.length from hl1, rfl,
            show l1.io.bytes.length = log.io.bytes.length from by rw [hb1],
            show l1.changed = log.changed from hch1,
            Or.inr (Or.inr hfacts)⟩
          · exact hwf1.len_eq
          · exact hwf1.bytes_len
          · show l1.header.endOffset ≤ l1.length
            omega
          · exact hwf1.max_le
          · exact hwf1.bytes_ok
          · exact hwf1.start_ge
          · exact hwf1.start_le
          · exact hwf1.end_ge
          · exact hwf1.end_le
          · exact hwf1.cache

theorem fileWrite_pos (f : FileS) (d : List Nat) :
    (fileWrite f d).pos = f.pos + d.length := rfl

theorem recordHeaderBytes_length (h : EvtRecordHeader) :
    (recordHeaderBytes h).length = 56 := by
  simp [recordHeaderBytes, le32, le16]

theorem cBytes_length (d : List Nat) (n : Nat) : (cBytes d n).length = n := by
  unfold cBytes
  rw [List.length_append, List.length_take, List.length_replicate]
  omega

set_option maxHeartbeats 2000000 in
/-- The write phase of a successful append preserves the invariant,
provided the prepared state has the stream at `endOffset`, at least a
record header of room before the end, and either straight or wrapped room
for the whole record. -/
theorem evtAppendFinish_wf (l1 : EvtLogS) (record : EvtRecordData)
    (hwf : LogWF l1) (hpos : l1.io.pos = l1.header.endOffset)
    (hlen : record.header.length < 2 ^ 32)
    (hdb : bytesOk (record.data.getD []))
    (hend56 : l1.header.endOffset + 56 ≤ l1.header.maxSize)
    (hfit : l1.header.endOffset + (56 + record.dataLength) ≤ l1.header.maxSize ∨
      48 + (56 + record.dataLength) ≤
        l1.header.startOffset + (l1.header.maxSize - l1.header.endOffset)) :
    LogWF (evtAppendFinish l1 record) := by
  have h1 := hwf.start_ge
  have h2 := hwf.start_le
  have h3 := hwf.end_ge
  have h4 := hwf.end_le
  have h5 := hwf.len_eq
  have h6 := hwf.pos_le
  have h7 := hwf.bytes_len
  have h8 := hwf.max_le
  have hc1 : EVT_HEADER_LENGTH = 48 := rfl
  have hc2 : EVT_RECORD_HEADER_LENGTH = 56 := rfl
  simp only [evtAppendFinish, evtReposition, evtRepositionOffset]
  split
  · -- the log was empty: startOffset moves to the record
    rename_i hold
    split
    · -- straight write
      rename_i hsp
      simp only [fileWrite_pos, recordHeaderBytes_length, cBytes_length] at hsp
      refine ⟨?_, ?_, ?_, ?_, ?_, ?_, ?_, ?_, ?_, ?_⟩ <;>
        dsimp only <;>
        try simp only [fileWrite_pos, fileWrite_length, recordHeaderBytes_length,
          cBytes_length, List.length_take, List.length_drop]
      · omega
      · omega
      · omega
      · omega
      · exact fileWrite_bytesOk _ _
          (fileWrite_bytesOk _ _ hwf.bytes_ok (recordHeaderBytes_bytesOk _))
          (cBytes_bytesOk _ hdb)
      · omega
      · omega
      · omega
      · omega
      · intro _
        refine ⟨by trivial, hlen, by omega⟩
    · -- the record wraps at the end of the file
      rename_i hsp
      simp only [fileWrite_pos, recordHeaderBytes_length, cBytes_length] at hsp
      have hfit2 : 48 + (56 + record.dataLength) ≤
          l1.header.startOffset + (l1.header.maxSize - l1.header.endOffset) := by
        rcases hfit with hf | hf
        · omega
        · exact hf
      refine ⟨?_, ?_, ?_, ?_, ?_, ?_, ?_, ?_, ?_, ?_⟩ <;>
        dsimp only <;>
        try simp only [fileWrite_pos, fileWrite_length, recordHeaderBytes_length,
          cBytes_length, List.length_take, List.length_drop]
      · omega
      · omega
      · omega
      · omega
      · exact fileWrite_bytesOk _ _
          (fileWrite_bytesOk _ _
            (fileWrite_bytesOk _ _ hwf.bytes_ok (recordHeaderBytes_bytesOk _))
            (fun b hb => cBytes_bytesOk _ hdb b (List.take_subset _ _ hb)))
          (fun b hb => cBytes_bytesOk _ hdb b (List.drop_subset _ _ hb))
      · omega
      · omega
      · omega
      · omega
      · intro _
        refine ⟨by trivial, hlen, by omega⟩
  · -- records already present: startOffset and the cache stay
    rename_i hold
    split
    · rename_i hsp
      simp only [fileWrite_pos, recordHeaderBytes_length, cBytes_length] at hsp
      refine ⟨?_, ?_, ?_, ?_, ?_, ?_, ?_, ?_, ?_, ?_⟩ <;>
        dsimp only <;>
        try simp only [fileWrite_pos, fileWrite_length, recordHeaderBytes_length,
          cBytes_length, List.length_take, List.length_drop]
      · omega
      · omega
      · omega
      · omega
      · exact fileWrite_bytesOk _ _
          (fileWrite_bytesOk _ _ hwf.bytes_ok (recordHeaderBytes_bytesOk _))
          (cBytes_bytesOk _ hdb)
      · omega
      · omega
      · omega
      · omega
      · exact hwf.cache
    · rename_i hsp
      simp only [fileWrite_pos, recordHeaderBytes_length, cBytes_length] at hsp
      have hfit2 : 48 + (56 + record.dataLength) ≤
          l1.header.startOffset + (l1.header.maxSize - l1.header.endOffset) := by
        rcases hfit with hf | hf
        · omega
        · exact hf
      refine ⟨?_, ?_, ?_, ?_, ?_, ?_, ?_, ?_, ?_, ?_⟩ <;>
        dsimp only <;>
        try simp only [fileWrite_pos, fileWrite_length, recordHeaderBytes_length,
          cBytes_length, List.length_take, List.length_drop]
      · omega
      · omega
      · omega
      · omega
      · exact fileWrite_bytesOk _ _
          (fileWrite_bytesOk _ _
            (fileWrite_bytesOk _ _ hwf.bytes_ok (recordHeaderBytes_bytesOk _))
            (fun b hb => cBytes_bytesOk _ hdb b (List.take_subset _ _ hb)))
          (fun b hb => cBytes_bytesOk _ hdb b (List.drop_subset _ _ hb))
      · omega
      · omega
      · omega
      · omega
      · exact hwf.cache

set_option maxHeartbeats 1000000 in
/-- A successful `evtAppendRecord` of a record whose data fits in a
31-bit record length preserves the invariant. -/
theorem evtAppendRecord_wf (fuel : Nat) (log l2 : EvtLogS)
    (record : EvtRecordData) (ov : Bool) (hwf : LogWF log)
    (hdl : record.dataLength ≤ 2 ^ 31 - 56)
    (hlen : record.header.length < 2 ^ 32)
    (hdb : bytesOk (record.data.getD []))
    (h : evtAppendRecord fuel log record ov = some (.ok, l2)) :
    LogWF l2 := by
  have hc1 : EVT_HEADER_LENGTH = 48 := rfl
  have hc2 : EVT_RECORD_HEADER_LENGTH = 56 := rfl
  unfold evtAppendRecord at h
  dsimp only [] at h
  split at h
  · exact absurd (congrArg (fun r => r.map Prod.fst) h) (by simp)
  · split at h
    · exact absurd h (by simp)
    · rename_i e l1 heq
      split at h
      · rename_i hne
        rw [Option.some.injEq, Prod.mk.injEq] at h
        exact absurd h.1 hne
      · rename_i hne
        have he : e = .ok := by
          rcases e with _ | _ | _ | _ | _
          · rfl
          · exact absurd (by simp) hne
          · exact absurd (by simp) hne
          · exact absurd (by simp) hne
          · exact absurd (by simp) hne
        subst he
        have hwf0 : LogWF { log with
            header.flags :=
              log.header.flags &&& (2 ^ 32 - 1 - EVT_HEADER_LOGFULL_WRITTEN) } :=
          ⟨hwf.len_eq, hwf.bytes_len, hwf.pos_le, hwf.max_le, hwf.bytes_ok,
           hwf.start_ge, hwf.start_le, hwf.end_ge, hwf.end_le, hwf.cache⟩
        have hsz : (EVT_RECORD_HEADER_LENGTH + record.dataLength) % 2 ^ 32 =
            56 + record.dataLength := by omega
        obtain ⟨hwf1, hm1, hl1, hpos, hblen, hch, hbr⟩ :=
          evtPrepareWrite_wf fuel _ _ l1 hwf0 (by omega) (by omega) heq
        have ha1 := hwf1.start_ge
        have ha2 := hwf1.start_le
        have ha3 := hwf1.end_ge
        have ha4 := hwf1.end_le
        have ha5 := hwf1.len_eq
        have hend56 : l1.header.endOffset + 56 ≤ l1.header.maxSize := by
          rcases hbr with ⟨h01, hsA, heA, hmA⟩ | ⟨heB, hsB⟩ | ⟨hC1, hC2x, hC3⟩
          · omega
          · omega
          · omega
        have hfit : l1.header.endOffset + (56 + record.dataLength) ≤
              l1.header.maxSize ∨
            48 + (56 + record.dataLength) ≤
              l1.header.startOffset + (l1.header.maxSize - l1.header.endOffset) := by
          rcases hbr with ⟨h01, hsA, heA, hmA⟩ | ⟨heB, hsB⟩ | ⟨hC1, hC2x, hC3⟩
          · exact Or.inl (by omega)
          · exact Or.inl (by omega)
          · by_cases hse : l1.header.startOffset ≤ l1.header.endOffset
            · have := hC3 hse
              exact Or.inr (by omega)
            · have := hC2x (by omega)
              exact Or.inl (by omega)
        rw [Option.some.injEq, Prod.mk.injEq] at h
        rw [← h.2]
        exact evtAppendFinish_wf l1 record hwf1 hpos hlen hdb hend56 hfit

/-- What a successful `fread` guarantees: same bytes, the position
advanced by `n` within the file, and the bytes delivered. -/
theorem fileRead_spec (f : FileS) (n : Nat) (b : List Nat) (f2 : FileS)
    (h : fileRead f n = some (b, f2)) :
    f2.bytes = f.bytes ∧ f2.pos = f.pos + n ∧ f.pos + n ≤ f.bytes.length ∧
    b = (f.bytes.drop f.pos).take n := by
  unfold fileRead at h
  split at h
  · rename_i hle
    rw [Option.some.injEq, Prod.mk.injEq] at h
    refine ⟨?_, ?_, hle, h.1.symm⟩
    · rw [← h.2]
    · rw [← h.2]
  · exact absurd h (by simp)

theorem bytesOk_take_drop {l : List Nat} (h : bytesOk l) (i n : Nat) :
    bytesOk ((l.drop i).take n) :=
  fun b hb => h b (List.drop_subset _ _ (List.take_subset _ _ hb))

/-- The invariant survives replacing the stream with one holding the same
bytes and an in-bounds position, refreshing the first-record cache. -/
theorem wf_read_final (l1 : EvtLogS) (io2 : FileS) (fr : Bool) (fl : Nat)
    (hwf : LogWF l1) (hb : io2.bytes = l1.io.bytes) (hp : io2.pos ≤ l1.length)
    (hcache : l1.header.oldestRecordNumber ≠ 0 → fr = true ∧ fl < 2 ^ 32) :
    LogWF { l1 with
      firstRecordRead := fr
      firstRecordLen := fl
      io := io2 } :=
  ⟨hwf.len_eq, by rw [hb]; exact hwf.bytes_len, hp, hwf.max_le,
   by rw [hb]; exact hwf.bytes_ok, hwf.start_ge, hwf.start_le, hwf.end_ge,
   hwf.end_le,
   fun hne => ⟨(hcache hne).1, (hcache hne).2, (hwf.cache hne).2.2⟩⟩

set_option maxHeartbeats 2000000 in
/-- A successful `evtReadRecordFrom` preserves the invariant. -/
theorem evtReadRecordFrom_wf (l1 l2 : EvtLogS) (prev : EvtRecordHeader)
    (hwf : LogWF l1) (h : evtReadRecordFrom l1 prev = (.ok, l2)) :
    LogWF l2 := by
  have hbl := hwf.bytes_len
  unfold evtReadRecordFrom at h
  dsimp only [] at h
  split at h
  · exact absurd (congrArg Prod.fst h) (by simp)
  · rename_i hoff
    rcases hrd : fileRead l1.io 4 with _ | ⟨b, io2⟩ <;> rw [hrd] at h
    · exact absurd (congrArg Prod.fst h) (by simp)
    obtain ⟨hb2, hp2, hle2, hbv2⟩ := fileRead_spec _ _ _ _ hrd
    dsimp only [] at h
    split at h
    · -- the EOF sentinel: never .ok
      rcases hrd3 : fileRead io2 16 with _ | ⟨b2, io3⟩ <;> rw [hrd3] at h
      · exact absurd (congrArg Prod.fst h) (by simp)
      dsimp only [] at h
      split at h
      · exact absurd (congrArg Prod.fst h) (by simp)
      · exact absurd (congrArg Prod.fst h) (by simp)
    split at h
    · exact absurd (congrArg Prod.fst h) (by simp)
    split at h
    · exact absurd (congrArg Prod.fst h) (by simp)
    rcases hrd4 : fileRead io2 52 with _ | ⟨b4, io4⟩ <;> rw [hrd4] at h
    · exact absurd (congrArg Prod.fst h) (by simp)
    obtain ⟨hb4, hp4, hle4, hbv4⟩ := fileRead_spec _ _ _ _ hrd4
    have hlen32 : rd32 b 0 < 2 ^ 32 := by
      rw [hbv2]
      exact rd32_lt _ _ (bytesOk_take_drop hwf.bytes_ok _ _)
    dsimp only [] at h
    split at h
    · -- the data wraps past the end of the file
      split at h
      · rcases hrd5 : fileRead io4 (l1.length - io4.pos) with _ | ⟨b5, io5⟩ <;>
          rw [hrd5] at h
        · exact absurd (congrArg Prod.fst h) (by simp)
        obtain ⟨hb5, hp5, hle5, hbv5⟩ := fileRead_spec _ _ _ _ hrd5
        dsimp only [evtReposition, evtRepositionOffset] at h
        rcases hrd6 : fileRead { bytes := io5.bytes, pos := EVT_HEADER_LENGTH }
            (rd32 b 0 - EVT_RECORD_HEADER_LENGTH - (l1.length - io4.pos)) with
          _ | ⟨b6, io6⟩ <;> rw [hrd6] at h
        · exact absurd (congrArg Prod.fst h) (by simp)
        obtain ⟨hb6, hp6, hle6, hbv6⟩ := fileRead_spec _ _ _ _ hrd6
        dsimp only [] at hb6 hp6 hle6
        rw [Prod.mk.injEq] at h
        rw [← h.2]
        have hbeq : io6.bytes = l1.io.bytes := by
          rw [hb6, hb5, hb4, hb2]
        have hple : io6.pos ≤ l1.length := by
          rw [hb5, hb4, hb2] at hle6
          omega
        split
        · exact wf_read_final l1 io6 true (rd32 b 0) hwf hbeq hple
            (fun _ => ⟨rfl, hlen32⟩)
        · exact wf_read_final l1 io6 l1.firstRecordRead l1.firstRecordLen hwf
            hbeq hple (fun hne => ⟨(hwf.cache hne).1, (hwf.cache hne).2.1⟩)
      · exact absurd (congrArg Prod.fst h) (by simp)
    · rcases hrd5 : fileRead io4 (rd32 b 0 - EVT_RECORD_HEADER_LENGTH) with
        _ | ⟨b5, io5⟩ <;> rw [hrd5] at h
      · exact absurd (congrArg Prod.fst h) (by simp)
      obtain ⟨hb5, hp5, hle5, hbv5⟩ := fileRead_spec _ _ _ _ hrd5
      rw [Prod.mk.injEq] at h
      rw [← h.2]
      have hbeq : io5.bytes = l1.io.bytes := by
        rw [hb5, hb4, hb2]
      have hple : io5.pos ≤ l1.length := by
        rw [hb4, hb2] at hle5
        omega
      split
      · exact wf_read_final l1 io5 true (rd32 b 0) hwf hbeq hple
          (fun _ => ⟨rfl, hlen32⟩)
      · exact wf_read_final l1 io5 l1.firstRecordRead l1.firstRecordLen hwf
          hbeq hple (fun hne => ⟨(hwf.cache hne).1, (hwf.cache hne).2.1⟩)

/-- C3 support: a successful `evtReadRecord` preserves the invariant. -/
theorem evtReadRecord_wf (log l2 : EvtLogS) (prev : EvtRecordHeader)
    (hwf : LogWF log) (h : evtReadRecord log prev = (.ok, l2)) :
    LogWF l2 := by
  unfold evtReadRecord at h
  split at h
  · refine evtReadRecordFrom_wf _ _ _ ?_ h
    have h3 := hwf.end_ge
    have h4 := hwf.end_le
    have h5 := hwf.len_eq
    exact ⟨hwf.len_eq, hwf.bytes_len,
      show EVT_HEADER_LENGTH ≤ log.length by omega, hwf.max_le, hwf.bytes_ok,
      hwf.start_ge, hwf.start_le, hwf.end_ge, hwf.end_le, hwf.cache⟩
  · exact evtReadRecordFrom_wf _ _ _ hwf h

set_option maxHeartbeats 1000000 in
/-- A successful `evtWriteEOF` preserves the invariant: the sentinel is
written inside the file in every prepare branch. -/
theorem evtWriteEOF_wf (fuel : Nat) (log l2 : EvtLogS) (hwf : LogWF log)
    (h : evtWriteEOF fuel log = some (.ok, l2)) : LogWF l2 := by
  have hc1 : EVT_HEADER_LENGTH = 48 := rfl
  have hc2 : EVT_RECORD_HEADER_LENGTH = 56 := rfl
  have hc3 : EVT_EOF_LENGTH = 40 := rfl
  unfold evtWriteEOF at h
  split at h
  · exact absurd h (by simp)
  · rename_i e l1 heq
    split at h
    · rename_i hne
      rw [Option.some.injEq, Prod.mk.injEq] at h
      exact absurd h.1 hne
    · rename_i hne
      have he : e = .ok := by
        rcases e with _ | _ | _ | _ | _
        · rfl
        · exact absurd (by simp) hne
        · exact absurd (by simp) hne
        · exact absurd (by simp) hne
        · exact absurd (by simp) hne
      subst he
      obtain ⟨hwf1, hm1, hl1, hpos, hblen, hch, hbr⟩ :=
        evtPrepareWrite_wf fuel _ _ l1 hwf (by omega) (by omega) heq
      have ha1 := hwf1.start_ge
      have ha2 := hwf1.start_le
      have ha3 := hwf1.end_ge
      have ha4 := hwf1.end_le
      have ha5 := hwf1.len_eq
      have ha6 := hwf1.max_le
      have ha7 := hwf1.bytes_len
      have hend40 : l1.header.endOffset + 40 ≤ l1.header.maxSize := by
        rcases hbr with ⟨h01, hsA, heA, hmA⟩ | ⟨heB, hsB⟩ | ⟨hC1, hC2x, hC3⟩
        · omega
        · omega
        · omega
      dsimp only [] at h
      split at h
      · -- the emptied log: repair startOffset before writing the sentinel
        rename_i hold
        simp only [Option.some.injEq, Prod.mk.injEq, true_and] at h
        rw [← h]
        refine ⟨?_, ?_, ?_, ?_, ?_, ?_, ?_, ?_, ?_, ?_⟩ <;>
          dsimp only <;>
          try simp only [fileWrite_pos, fileWrite_length, eofBytes_length]
        · omega
        · omega
        · omega
        · omega
        · exact fileWrite_bytesOk _ _ hwf1.bytes_ok (eofBytes_bytesOk _)
        · omega
        · omega
        · omega
        · omega
        · intro hcon
          exact absurd hold hcon
      · rename_i hold
        simp only [Option.some.injEq, Prod.mk.injEq, true_and] at h
        rw [← h]
        refine ⟨?_, ?_, ?_, ?_, ?_, ?_, ?_, ?_, ?_, ?_⟩ <;>
          dsimp only <;>
          try simp only [fileWrite_pos, fileWrite_length, eofBytes_length]
        · omega
        · omega
        · omega
        · omega
        · exact fileWrite_bytesOk _ _ hwf1.bytes_ok (eofBytes_bytesOk _)
        · omega
        · omega
        · omega
        · omega
        · exact hwf1.cache

/-- A successful `evtClose` preserves the invariant. -/
theorem evtClose_wf (fuel : Nat) (log l2 : EvtLogS) (hwf : LogWF log)
    (h : evtClose fuel log = some (.ok, l2)) : LogWF l2 := by
  have hc1 : EVT_HEADER_LENGTH = 48 := rfl
  unfold evtClose at h
  split at h
  · split at h
    · exact absurd h (by simp)
    · rename_i e l1 heq
      split at h
      · rename_i hne
        rw [Option.some.injEq, Prod.mk.injEq] at h
        exact absurd h.1 hne
      · rename_i hne
        have he : e = .ok := by
          rcases e with _ | _ | _ | _ | _
          · rfl
          · exact absurd (by simp) hne
          · exact absurd (by simp) hne
          · exact absurd (by simp) hne
          · exact absurd (by simp) hne
        subst he
        have hwf1 := evtWriteEOF_wf fuel log l1 hwf heq
        have ha3 := hwf1.end_ge
        have ha4 := hwf1.end_le
        have ha5 := hwf1.len_eq
        have ha6 := hwf1.max_le
        have ha7 := hwf1.bytes_len
        simp only [Option.some.injEq, Prod.mk.injEq, true_and] at h
        rw [← h]
        refine ⟨?_, ?_, ?_, ?_, ?_, ?_, ?_, ?_, ?_, ?_⟩ <;>
          dsimp only [evtWriteHeader, evtReposition, evtRepositionOffset] <;>
          try simp only [fileWrite_pos, fileWrite_length, headerBytes_length]
        · omega
        · omega
        · omega
        · omega
        · exact fileWrite_bytesOk _ _ hwf1.bytes_ok (headerBytes_bytesOk _)
        · exact hwf1.start_ge
        · exact hwf1.start_le
        · exact hwf1.end_ge
        · exact hwf1.end_le
        · exact hwf1.cache
  · simp only [Option.some.injEq, Prod.mk.injEq, true_and] at h
    rw [← h]
    exact hwf

/-- The reachable log states of claim C3: a log made by `evtOpenCreate`
(with room for the header and a 31-bit size), then any sequence of
successful `evtAppendRecord` (of records with a 31-bit length and byte
data), `evtReadRecord` and `evtClose` operations. -/
inductive C3Reach : EvtLogS → Prop
  | create (io : FileS) (size : Nat) (log : EvtLogS)
      (h48 : EVT_HEADER_LENGTH ≤ size) (h31 : size ≤ 2 ^ 31)
      (hio : bytesOk io.bytes) (h : evtOpenCreate io size = some log) :
      C3Reach log
  | append (fuel : Nat) (log l2 : EvtLogS) (record : EvtRecordData)
      (ov : Bool) (hr : C3Reach log) (hdl : record.dataLength ≤ 2 ^ 31 - 56)
      (hlen : record.header.length < 2 ^ 32)
      (hdb : bytesOk (record.data.getD []))
      (h : evtAppendRecord fuel log record ov = some (.ok, l2)) : C3Reach l2
  | read (log l2 : EvtLogS) (prev : EvtRecordHeader) (hr : C3Reach log)
      (h : evtReadRecord log prev = (.ok, l2)) : C3Reach l2
  | close (fuel : Nat) (log l2 : EvtLogS) (hr : C3Reach log)
      (h : evtClose fuel log = some (.ok, l2)) : C3Reach l2

/-- The concrete log of the C3 witness: a fresh 88-byte log. -/
def evtC3WitLog : EvtLogS :=
  (evtOpenCreate { bytes := [], pos := 0 } 88).get (by decide)

/-- C3, amended: on every reachable log state the offsets satisfy
`48 ≤ startOffset ≤ maxSize` and `48 ≤ endOffset ≤ maxSize` (the strict
upper bound and the emptiness equivalence of the original claim fail, see
the counterexample). -/
theorem C3_reachable_amended (log : EvtLogS) (h : C3Reach log) :
    48 ≤ log.header.startOffset ∧ log.header.startOffset ≤ log.header.maxSize ∧
    48 ≤ log.header.endOffset ∧ log.header.endOffset ≤ log.header.maxSize := by
  have hwf : LogWF log := by
    induction h with
    | create io size l h48 h31 hio h =>
      exact evtOpenCreate_wf io size l h48 h31 hio h
    | append fuel l l2 record ov hr hdl hlen hdb h ih =>
      exact evtAppendRecord_wf fuel l l2 record ov ih hdl hlen hdb h
    | read l l2 prev hr h ih => exact evtReadRecord_wf l l2 prev ih h
    | close fuel l l2 hr h ih => exact evtClose_wf fuel l l2 ih h
  have hc1 : EVT_HEADER_LENGTH = 48 := rfl
  have h1 := hwf.start_ge
  have h2 := hwf.start_le
  have h3 := hwf.end_ge
  have h4 := hwf.end_le
  exact ⟨by omega, h2, by omega, h4⟩

set_option maxRecDepth 4000 in
theorem C3_reachable_amended_witness :
    48 ≤ evtC3WitLog.header.startOffset ∧
    evtC3WitLog.header.startOffset ≤ evtC3WitLog.header.maxSize ∧
    48 ≤ evtC3WitLog.header.endOffset ∧
    evtC3WitLog.header.endOffset ≤ evtC3WitLog.header.maxSize :=
  C3_reachable_amended evtC3WitLog
    (C3Reach.create { bytes := [], pos := 0 } 88 evtC3WitLog (by decide)
      (by decide) (by intro b hb; exact absurd hb (by simp)) (by decide))

end EvtTools
